import Mathlib

/-! Verification of hash-benchmark: multiset equality of two string sequences.

A shallow embedding of `src/main.cpp`.

* A `std::span<T const>` / `std::vector<T>` is a `List α`.
* `operator<`, `operator==` and the `Hash` functor of the element type `T` are
  the three functions of an `ElementOps α`; nothing is assumed about them. A
  theorem that needs `operator==` to hold exactly between identical values
  says so (`ElementOps.exact_on`, or the operators `ordered_ops` of a
  `LinearOrder α`); `C_String_ops` are the operators of `C_String`, whose
  `operator==` stops at the first zero byte while its hash reads 100 bytes.
* `std::unordered_multiset` keeps its elements and its number of buckets:
  `find` looks only at the elements in the bucket `hash % bucket_count` of the
  key and compares them with `operator==`. `absl::flat_hash_map` keeps its
  slots and its capacity: `operator[]` compares the key with the stored keys
  that its probe meets. How many buckets there are and which keys a probe meets
  is decided by the library, so these rules are parameters (`RehashPolicy`,
  `ProbePolicy`) and the theorems hold for all of them.
* `size_t` is `Nat` reduced modulo `2 ^ 64` wherever the source does arithmetic
  on it; the length of a `std::span` is a `size_t`, which the theorems about the
  counting map state as `A.length < SIZE_MOD`.
* A failed `assert` (assertions are active) and a call of `std::generate` on a
  range that is not inside the element's buffer (undefined behaviour) are `none`.
* The benchmark library is the list of benchmarks registered so far; the loop
  that adds the size arguments runs on fuel, and the theorems hold for every
  fuel that lets it end.
* The standard-library pieces (`std::sort`, `std::unordered_multiset`,
  `absl::flat_hash_map`, the random engines) are not part of the repository;
  they are modelled by small executable definitions that follow their
  documented behaviour.
-/

namespace HashBenchmark

/-! ## Machine integers -/

/-- Number of values of `size_t` on the 64-bit target. -/
def SIZE_MOD : Nat := 2 ^ 64

/-! ## `SConstructVector` (main.cpp 38-60) -/

/-- The functor `SConstructVector<true>`: the iterator-pair constructor of `std::vector`
applied to `rng.begin()` and `rng.end()`. -/
def SConstructVector_true {α : Type} (rng : List α) : List α :=
  rng

/-- One `vec.push_back(str)`. -/
def push_back {α : Type} (vec : List α) (str : α) : List α :=
  vec ++ [str]

/-- The functor `SConstructVector<false>`: start from an empty vector and `push_back` every element. -/
def SConstructVector_false {α : Type} (rng : List α) : List α :=
  rng.foldl push_back []

/-- The call `SConstructVector<size_known>()(rng)`. -/
def SConstructVector {α : Type} (size_known : Bool) (rng : List α) : List α :=
  if size_known then SConstructVector_true rng else SConstructVector_false rng

/-! ## The operators of the element type -/

/-- The operators of the element type `T` that the three algorithms call. -/
structure ElementOps (α : Type) where
  /-- The `operator<` of `T`. -/
  lt : α → α → Bool
  /-- The `operator==` of `T`. -/
  eq : α → α → Bool
  /-- The `Hash` functor, `std::hash<T>` unless the caller names another. -/
  hash : α → Nat

/-- The operators of an element type whose `operator<` is the strict total order
`<`, whose `operator==` is equality of values, and whose hash is `hash`. -/
def ordered_ops {α : Type} [LinearOrder α] [DecidableEq α] (hash : α → Nat) : ElementOps α where
  lt := fun a b => decide (a < b)
  eq := fun a b => decide (a = b)
  hash := hash

/-- On the elements of `L` the `operator==` holds exactly between identical
values; as the hash is a function of the value, keys that compare equal then
hash alike. -/
def ElementOps.exact_on {α : Type} (K : ElementOps α) (L : List α) : Prop :=
  ∀ x ∈ L, ∀ y ∈ L, K.eq x y = true ↔ x = y

/-- Position of the first element that satisfies `p`, scanning from the front. -/
def find_index {α : Type} (p : α → Bool) : List α → Option Nat
  | [] => none
  | y :: ys => if p y then some 0 else (find_index p ys).map (fun i => i + 1)

/-! ## `compare_multiset_sort` (main.cpp 62-70) -/

/-- Insert `x` into an ascending list, after every element that is not greater
(only `operator<` of the element type is used). -/
def sort_insert {α : Type} (K : ElementOps α) (x : α) : List α → List α
  | [] => [x]
  | y :: ys => if K.lt x y then x :: y :: ys else y :: sort_insert K x ys

/-- The call `std::sort(first, last)`: rearranges the range into ascending order with
respect to `operator<`; modelled by insertion sort. -/
def std_sort {α : Type} (K : ElementOps α) : List α → List α
  | [] => []
  | x :: xs => sort_insert K x (std_sort K xs)

/-- The `operator==` of `std::vector`: equal sizes and element-wise `operator==`. -/
def vector_eq {α : Type} (K : ElementOps α) : List α → List α → Bool
  | [], [] => true
  | x :: xs, y :: ys => if K.eq x y then vector_eq K xs ys else false
  | _, _ => false

/-- The function `compare_multiset_sort<T, size_known>(rngstr1, rngstr2)`. -/
def compare_multiset_sort {α : Type} (K : ElementOps α) (size_known : Bool)
    (rngstr1 rngstr2 : List α) : Bool :=
  let vecstr1 := std_sort K (SConstructVector size_known rngstr1)
  let vecstr2 := std_sort K (SConstructVector size_known rngstr2)
  vector_eq K vecstr1 vecstr2

/-! ## `compare_multiset_unordered_multiset` (main.cpp 72-84) -/

/-- The rules by which `std::unordered_multiset` chooses its number of buckets;
they belong to the standard library, so they are a parameter: the bucket count
of an empty table, the bucket count after `reserve(n)` (from the current count),
and the bucket count after an insertion (from the current count and the number
of elements stored before it). -/
structure RehashPolicy where
  initial : Nat
  reserve : Nat → Nat → Nat
  grow : Nat → Nat → Nat

/-- Contents of a `std::unordered_multiset<T, Hash>`: the stored elements (one
entry per occurrence, newest first) and the number of buckets; an element lives
in the bucket `hash(element) % bucket_count`. -/
structure unordered_multiset (α : Type) where
  elems : List α
  bucket_count : Nat

namespace unordered_multiset

/-- A default-constructed multiset (`std::unordered_multiset<T, Hash> set1;`). -/
def empty {α : Type} (P : RehashPolicy) : unordered_multiset α :=
  { elems := [], bucket_count := P.initial }

/-- The call `set1.reserve(n)`: changes the number of buckets, not the contents. -/
def reserve {α : Type} (P : RehashPolicy) (s : unordered_multiset α) (n : Nat) :
    unordered_multiset α :=
  { s with bucket_count := P.reserve s.bucket_count n }

/-- The call `set1.insert(pos, x)`: adds one occurrence of `x`; the table may be
rehashed to another number of buckets. -/
def insert {α : Type} (P : RehashPolicy) (s : unordered_multiset α) (x : α) :
    unordered_multiset α :=
  { elems := x :: s.elems
    bucket_count := P.grow s.bucket_count s.elems.length }

/-- The bucket of `x`: `hash(x) % bucket_count`. -/
def bucket {α : Type} (K : ElementOps α) (s : unordered_multiset α) (x : α) : Nat :=
  K.hash x % s.bucket_count

/-- The call `set1.find(x)`: the position of the first element in the bucket of
`x` that `operator==` accepts, `none` standing for `set1.end()`. -/
def find {α : Type} (K : ElementOps α) (s : unordered_multiset α) (x : α) : Option Nat :=
  find_index (fun y => decide (s.bucket K y = s.bucket K x) && K.eq x y) s.elems

/-- The call `set1.erase(it)`: removes exactly the element at position `it`. -/
def erase {α : Type} (s : unordered_multiset α) (it : Nat) : unordered_multiset α :=
  { s with elems := s.elems.eraseIdx it }

end unordered_multiset

/-- The loop `for (auto const& str : rngstr1)` of `compare_multiset_unordered_multiset`. -/
def unordered_multiset_loop {α : Type} (K : ElementOps α) :
    unordered_multiset α → List α → Bool
  | _, [] => true
  | set1, str :: rest =>
    match set1.find K str with
    | some it => unordered_multiset_loop K (set1.erase it) rest
    | none => false

/-- The function `compare_multiset_unordered_multiset<T, size_known, Hash>(rngstr1, rngstr2)`. -/
def compare_multiset_unordered_multiset {α : Type} (K : ElementOps α) (P : RehashPolicy)
    (size_known : Bool) (rngstr1 rngstr2 : List α) : Bool :=
  let set1 : unordered_multiset α := unordered_multiset.empty P
  let set1 := if size_known then set1.reserve P rngstr1.length else set1
  let set1 := rngstr2.foldl (unordered_multiset.insert P) set1
  unordered_multiset_loop K set1 rngstr1

/-! ## `compare_multiset_hashtable_1` (main.cpp 86-103) -/

/-- The rules by which `absl::flat_hash_map` lays out its table; they belong to
the library, so they are a parameter: the capacity of an empty table, the
capacity after `reserve(n)`, the capacity after an insertion (from the current
capacity and the number of slots used before it), and `same_place c h h'`,
which tells whether the probe for a key with hash `h'` in a table of capacity
`c` meets a stored key with hash `h`, so that the two keys are compared with
`operator==`. A probe always meets the keys that have its own hash. -/
structure ProbePolicy where
  initial : Nat
  reserve : Nat → Nat → Nat
  grow : Nat → Nat → Nat
  same_place : Nat → Nat → Nat → Bool
  same_place_self : ∀ c h, same_place c h h = true

/-- Contents of an `absl::flat_hash_map<T, size_t, Hash>`: the used slots with
their `size_t` counts (newest first) and the capacity of the table. -/
structure flat_hash_map (α : Type) where
  slots : List (α × Nat)
  capacity : Nat

namespace flat_hash_map

/-- A default-constructed map. -/
def empty {α : Type} (P : ProbePolicy) : flat_hash_map α :=
  { slots := [], capacity := P.initial }

/-- The call `set1.reserve(n)`: changes the capacity, not the contents. -/
def reserve {α : Type} (P : ProbePolicy) (m : flat_hash_map α) (n : Nat) : flat_hash_map α :=
  { m with capacity := P.reserve m.capacity n }

/-- The count stored in the slot at position `i`. -/
def count_at {α : Type} : Nat → List (α × Nat) → Nat
  | _, [] => 0
  | 0, (_, v) :: _ => v
  | i + 1, _ :: rest => count_at i rest

/-- Overwrite the count stored in the slot at position `i`. -/
def set_count_at {α : Type} : Nat → Nat → List (α × Nat) → List (α × Nat)
  | _, _, [] => []
  | 0, v, (k, _) :: rest => (k, v) :: rest
  | i + 1, v, slot :: rest => slot :: set_count_at i v rest

/-- Whether the probe for `k` meets the stored key `k'` and `operator==` accepts it. -/
def hit {α : Type} (K : ElementOps α) (P : ProbePolicy) (m : flat_hash_map α) (k k' : α) :
    Bool :=
  P.same_place m.capacity (K.hash k') (K.hash k) && K.eq k k'

/-- The expression `set1[k]`: the map and the position of the slot it refers to;
when the probe finds no key, a slot with the value-initialised count `0` is
inserted first. -/
def subscript {α : Type} (K : ElementOps α) (P : ProbePolicy) (m : flat_hash_map α) (k : α) :
    flat_hash_map α × Nat :=
  match find_index (m.hit K P k) (m.slots.map Prod.fst) with
  | some i => (m, i)
  | none =>
    ({ slots := (k, 0) :: m.slots, capacity := P.grow m.capacity m.slots.length }, 0)

/-- The statement `++set1[k]` on a `size_t` count. -/
def pre_increment {α : Type} (K : ElementOps α) (P : ProbePolicy) (m : flat_hash_map α)
    (k : α) : flat_hash_map α :=
  let r := m.subscript K P k
  { r.1 with slots := set_count_at r.2 ((count_at r.2 r.1.slots + 1) % SIZE_MOD) r.1.slots }

/-- The expression `set1[k]--`: yields the count before the decrement and
stores the decremented `size_t` count. -/
def post_decrement {α : Type} (K : ElementOps α) (P : ProbePolicy) (m : flat_hash_map α)
    (k : α) : Nat × flat_hash_map α :=
  let r := m.subscript K P k
  let old := count_at r.2 r.1.slots
  (old, { r.1 with
    slots := set_count_at r.2 ((old + SIZE_MOD - 1) % SIZE_MOD) r.1.slots })

end flat_hash_map

/-- The second loop of `compare_multiset_hashtable_1`:
`for (str : rngstr2) if (set1[str]-- == 0) return false; return true;`. -/
def hashtable_loop {α : Type} (K : ElementOps α) (P : ProbePolicy) :
    flat_hash_map α → List α → Bool
  | _, [] => true
  | set1, str :: rest =>
    let r := set1.post_decrement K P str
    if r.1 = 0 then false else hashtable_loop K P r.2 rest

/-- The function `compare_multiset_hashtable_1<T, size_known, Hash>(rngstr1, rngstr2)`. -/
def compare_multiset_hashtable_1 {α : Type} (K : ElementOps α) (P : ProbePolicy)
    (size_known : Bool) (rngstr1 rngstr2 : List α) : Bool :=
  let set1 : flat_hash_map α := flat_hash_map.empty P
  let set1 := if size_known then set1.reserve P rngstr1.length else set1
  let set1 := rngstr1.foldl (flat_hash_map.pre_increment K P) set1
  hashtable_loop K P set1 rngstr2

/-! ## Sample library parameters

The theorems hold for every hash function and every table policy; these samples
serve to evaluate the algorithms on concrete inputs. -/

/-- A sample bucket rule with the two values that matter for a one-element
table: 13 buckets after the first insertion into a default-constructed table,
2 buckets after `reserve(1)`. -/
def sample_rehash_policy : RehashPolicy where
  initial := 1
  reserve := fun bucket_count n => max bucket_count (max 2 n)
  grow := fun bucket_count count =>
    if bucket_count = 1 then 13
    else if count < bucket_count then bucket_count else 2 * bucket_count + 1

/-- A sample probe rule: a probe meets the stored keys whose hash has the same
low seven bits. -/
def sample_probe_policy : ProbePolicy where
  initial := 0
  reserve := fun capacity n => max capacity n
  grow := fun capacity count => if count < capacity then capacity else 2 * capacity + 1
  same_place := fun _ h h' => decide (h % 128 = h' % 128)
  same_place_self := fun _ _ => by simp

/-- A sample hash of a byte range: the sum of the bytes. -/
def byte_sum (bytes : List Nat) : Nat :=
  bytes.sum

/-! ## Counts per key, told apart by identity

The contents that the counting map has when `operator==` is exact on its keys:
one count per distinct key. The theorems relate `flat_hash_map` to it. -/

/-- A table of counts per key. -/
structure count_table (α : Type) where
  slots : List (α × Nat)

namespace count_table

/-- The empty table. -/
def empty {α : Type} : count_table α :=
  { slots := [] }

/-- Value stored under `k`, if `k` is a key of the table. -/
def lookup {α : Type} [DecidableEq α] (k : α) : List (α × Nat) → Option Nat
  | [] => none
  | (k', v) :: rest => if k' = k then some v else lookup k rest

/-- Overwrite the value stored under the key `k`. -/
def assign {α : Type} [DecidableEq α] (k : α) (v : Nat) : List (α × Nat) → List (α × Nat)
  | [] => []
  | (k', v') :: rest => if k' = k then (k', v) :: rest else (k', v') :: assign k v rest

/-- Make sure that `k` is a key, with the count `0` when it is new. -/
def subscript {α : Type} [DecidableEq α] (m : count_table α) (k : α) : count_table α :=
  match lookup k m.slots with
  | some _ => m
  | none => { slots := (k, 0) :: m.slots }

/-- The count of `k`, `0` when `k` is not a key. -/
def deref {α : Type} [DecidableEq α] (m : count_table α) (k : α) : Nat :=
  (lookup k m.slots).getD 0

/-- Add one to the `size_t` count of `k`. -/
def pre_increment {α : Type} [DecidableEq α] (m : count_table α) (k : α) : count_table α :=
  let m1 := m.subscript k
  { m1 with slots := assign k ((m1.deref k + 1) % SIZE_MOD) m1.slots }

/-- The count of `k` before, and the table after, taking one from the `size_t`
count of `k`. -/
def post_decrement {α : Type} [DecidableEq α] (m : count_table α) (k : α) :
    Nat × count_table α :=
  let m1 := m.subscript k
  let old := m1.deref k
  (old, { m1 with slots := assign k ((old + SIZE_MOD - 1) % SIZE_MOD) m1.slots })

/-- Take one count per element of the list, failing at the first element whose
count is zero. -/
def loop {α : Type} [DecidableEq α] : count_table α → List α → Bool
  | _, [] => true
  | set1, str :: rest =>
    let r := set1.post_decrement str
    if r.1 = 0 then false else loop r.2 rest

/-- Count the elements of the first list, then take one count per element of
the second. -/
def compare {α : Type} [DecidableEq α] (rngstr1 rngstr2 : List α) : Bool :=
  loop (rngstr1.foldl pre_increment empty) rngstr2

end count_table

/-! ## String representations (main.cpp 106-156)

A `char` is stored as its code, a `Nat`; the bytes an element exposes through
`data()` are a `List Nat`. A failed `assert` is `none`. -/

/-- The operations of an element type `T` that the generator uses. -/
structure StringRep (T : Type) where
  /-- Value of `T()`, created by `result.emplace_back()`. -/
  construct : T
  /-- Result of `str.resize(m_new)`; `none` when an assertion fails. -/
  resize : T → Nat → Option T
  /-- Result of `str.size()`. -/
  size : T → Nat
  /-- The bytes of the buffer that `str.data()` points to. -/
  data : T → List Nat
  /-- The element after its buffer has been overwritten through `str.data()`. -/
  store : T → List Nat → T

/-- A `std::string`: its characters. -/
abbrev std_string : Type := List Nat

/-- The call `std::string::resize(m_new)`: cut to `m_new` characters or pad with `char()`. -/
def std_string.resize (str : std_string) (m_new : Nat) : std_string :=
  str.take m_new ++ List.replicate (m_new - str.length) 0

/-- The representation `std::string`. -/
def std_string_rep : StringRep std_string where
  construct := []
  resize := fun str m_new => some (std_string.resize str m_new)
  size := fun str => str.length
  data := fun str => str
  store := fun _ buf => buf

/-- The type `boomer_string<m>`: a `std::array<char, m>`. -/
structure boomer_string (m : Nat) where
  chars : List Nat
  deriving DecidableEq

/-- The call `boomer_string<m>::resize(m_new)`: `assert(m_new == m);` and nothing else. -/
def boomer_string.resize {m : Nat} (str : boomer_string m) (m_new : Nat) :
    Option (boomer_string m) :=
  if m_new = m then some str else none

/-- The representation `boomer_string<m>`; a value-initialised array holds `m` zero bytes
and `size()` is the template argument. -/
def boomer_string_rep (m : Nat) : StringRep (boomer_string m) where
  construct := { chars := List.replicate m 0 }
  resize := boomer_string.resize
  size := fun _ => m
  data := fun str => str.chars
  store := fun _ buf => { chars := buf }

/-- The type `C_String`: the member `std::unique_ptr<char[]> str`, `none` for the null pointer. -/
structure C_String where
  str : Option (List Nat)
  deriving DecidableEq

/-- The call `C_String::resize(m_new)`: `assert(!str)`, allocate `m_new + 1` zero bytes, write
the terminator at index `m_new`, `assert(m_new == 100)`. -/
def C_String.resize (s : C_String) (m_new : Nat) : Option C_String :=
  match s.str with
  | some _ => none
  | none =>
    let buf := (List.replicate (m_new + 1) 0).set m_new 0
    if m_new = 100 then some { str := some buf } else none

/-- The call `C_String::size()`: `return 100;`. -/
def C_String.size (_ : C_String) : Nat := 100

/-- The representation `C_String`. -/
def C_String_rep : StringRep C_String where
  construct := { str := none }
  resize := C_String.resize
  size := C_String.size
  data := fun s => s.str.getD []
  store := fun s buf =>
    match s.str with
    | some _ => { str := some buf }
    | none => s

/-- What the generator relies on: writing through `data()` changes the buffer
contents and nothing else, and an accepted `resize(m)` of a fresh element leaves
an element of size `m` whose buffer holds at least `m` bytes. -/
structure StringRep.Lawful {T : Type} (R : StringRep T) : Prop where
  data_store : ∀ s buf, buf.length = (R.data s).length → R.data (R.store s buf) = buf
  size_store : ∀ s buf, buf.length = (R.data s).length → R.size (R.store s buf) = R.size s
  size_resize : ∀ m s, R.resize R.construct m = some s → R.size s = m ∧ m ≤ (R.data s).length

/-- The `size()` bytes of an element, read from `data()`. -/
def payload {T : Type} (R : StringRep T) (e : T) : List Nat :=
  (R.data e).take (R.size e)

/-- The characters of a string literal as bytes. -/
def bytes_of (s : String) : std_string :=
  s.toList.map Char.toNat

/-! ## `generate_random_strings` (main.cpp 11-36) -/

/-- The two library objects the generator draws from: the state of a
default-constructed `random_bytes_engine`, and the call `dist(engine)` of
`std::uniform_int_distribution<char> dist('a', 'z')`, which yields a character
and the advanced engine. -/
structure RandomSource (σ : Type) where
  seed : σ
  dist : σ → Nat × σ

/-- Contract of `std::uniform_int_distribution<char>('a', 'z')`: every draw lies in
the closed range `'a'..'z'`. -/
def RandomSource.in_range {σ : Type} (E : RandomSource σ) : Prop :=
  ∀ s, 97 ≤ (E.dist s).1 ∧ (E.dist s).1 ≤ 122

/-- A sample source on which the generator can be evaluated: the state follows
the `minstd_rand0` recurrence behind `std::default_random_engine` (default seed
1) and the draw is the state reduced to `'a'..'z'`; the library's own reduction
of engine output to the range is not reproduced. -/
def minstd_source : RandomSource Nat where
  seed := 1
  dist := fun s =>
    let s' := 16807 * s % 2147483647
    (97 + s' % 26, s')

/-- The call `std::generate(first, first + count, g)` on a buffer:
`for (; first != last; ++first) *first = g();`. -/
def std_generate {σ : Type} (g : σ → Nat × σ) : Nat → Nat → List Nat → σ → List Nat × σ
  | 0, _, buf, s => (buf, s)
  | count + 1, first, buf, s =>
    let r := g s
    std_generate g count (first + 1) (buf.set first r.1) r.2

/-- The call `std::generate(str.data() + first, str.data() + last, g)` with pointer offsets
`first` and `last`; the call is defined only for a range inside the buffer. -/
def generate_range {T σ : Type} (R : StringRep T) (g : σ → Nat × σ) (str : T)
    (first last : Int) (s : σ) : Option (T × σ) :=
  if 0 ≤ first ∧ first ≤ last ∧ last ≤ ((R.data str).length : Int) then
    let r := std_generate g (last - first).toNat first.toNat (R.data str) s
    some (R.store str r.1, r.2)
  else none

/-- The statements of the loop body after `str.resize(m)`: the `if constexpr` with
its calls of `std::generate`. The lambda of the first call owns a copy of the
untouched `rbeFirstPart`, so that stream starts from `E.seed` for every element
and its advance is dropped; the other calls advance `rbe`. -/
def fill_element {T σ : Type} (R : StringRep T) (E : RandomSource σ) (almost_equal : Bool)
    (str : T) (rbe : σ) : Option (T × σ) :=
  if almost_equal then
    match generate_range R E.dist str 0 ((R.size str : Int) - 4) E.seed with
    | none => none
    | some r1 =>
      generate_range R E.dist r1.1 ((R.size r1.1 : Int) - 4) (R.size r1.1 : Int) rbe
  else
    generate_range R E.dist str 0 (R.size str : Int) rbe

/-- The loop `for (size_t i = 0; i < n; i++)` of `generate_random_strings`, with
`count` iterations left, the engine `rbe` and the vector built so far. -/
def generate_loop {T σ : Type} (R : StringRep T) (E : RandomSource σ) (almost_equal : Bool)
    (m : Nat) : Nat → σ → List T → Option (List T)
  | 0, _, result => some result
  | count + 1, rbe, result =>
    match R.resize R.construct m with
    | none => none
    | some str =>
      match fill_element R E almost_equal str rbe with
      | none => none
      | some r => generate_loop R E almost_equal m count r.2 (result ++ [r.1])

/-- The function `generate_random_strings<T, almost_equal>(n, m)`: both engines are
default-constructed locals. -/
def generate_random_strings {T σ : Type} (R : StringRep T) (E : RandomSource σ)
    (almost_equal : Bool) (n m : Nat) : Option (List T) :=
  generate_loop R E almost_equal m n E.seed []

/-- The successive draws of `count` calls of `g`, and the engine afterwards. -/
def draw_list {σ : Type} (g : σ → Nat × σ) : Nat → σ → List Nat × σ
  | 0, s => ([], s)
  | count + 1, s =>
    let r := g s
    let rest := draw_list g count r.2
    (r.1 :: rest.1, rest.2)

/-- Every byte of every element of `L` is a lowercase ASCII letter. -/
def all_lowercase {T : Type} (R : StringRep T) (L : List T) : Prop :=
  ∀ e ∈ L, ∀ b ∈ payload R e, 97 ≤ b ∧ b ≤ 122

instance all_lowercase.decidable {T : Type} (R : StringRep T) (L : List T) :
    Decidable (all_lowercase R L) := by
  unfold all_lowercase
  infer_instance


/-! ## `C_String` comparison and hashing (main.cpp 117-178) -/

/-- The call `strcmp(s1, s2)` on two buffers: the difference of the first pair of
unequal bytes, or `0` when a zero byte is met first; `none` when the scan would
leave a buffer. -/
def strcmp : List Nat → List Nat → Option Int
  | c1 :: s1, c2 :: s2 =>
    if c1 ≠ c2 then some ((c1 : Int) - (c2 : Int))
    else if c1 = 0 then some 0
    else strcmp s1 s2
  | _, _ => none

/-- The `operator==` of `C_String`: `strcmp(str.get(), other.str.get()) == 0`;
`none` when a pointer is null or the scan leaves a buffer. -/
def C_String.operator_eq (a b : C_String) : Option Bool :=
  match a.str, b.str with
  | some x, some y => (strcmp x y).map (fun r => decide (r = 0))
  | _, _ => none

/-- The `operator<` of `C_String`: `strcmp(str.get(), other.str.get()) < 0`. -/
def C_String.operator_lt (a b : C_String) : Option Bool :=
  match a.str, b.str with
  | some x, some y => (strcmp x y).map (fun r => decide (r < 0))
  | _, _ => none

/-- The byte range that `std::hash<C_String>` and `XXHash64` pass to the hash
function: `str.size()` bytes starting at `str.data()`. -/
def C_String.hash_input (s : C_String) : List Nat :=
  payload C_String_rep s

/-- The functors `std::hash<C_String>` and `XXHash64`, for a byte-range hash `H`
(`std::_Hash_impl::hash`, or `XXH64` with seed 0). -/
def C_String.hash (H : List Nat → Nat) (s : C_String) : Nat :=
  H s.hash_input

/-- An initialised `C_String`: it owns the 101-byte buffer that `resize(100)`
allocated, with the terminator at index 100. -/
def C_String.initialised (s : C_String) : Prop :=
  (C_String_rep.data s).length = 101 ∧ (C_String_rep.data s)[100]? = some 0

instance C_String.initialised.decidable (s : C_String) : Decidable s.initialised := by
  unfold C_String.initialised
  infer_instance

/-- None of the 100 payload bytes is zero. -/
def C_String.zero_free (s : C_String) : Prop :=
  ∀ b ∈ payload C_String_rep s, b ≠ 0

instance C_String.zero_free.decidable (s : C_String) : Decidable s.zero_free := by
  unfold C_String.zero_free
  infer_instance

/-- An initialised `C_String` with the byte `'a'`, a zero byte at index 1 and the
byte `c` at index 2. -/
def zero_at_one (c : Nat) : C_String :=
  C_String.mk (some (97 :: 0 :: c :: List.replicate 98 0))

/-- An initialised `C_String` whose 100 payload bytes are all `c`. -/
def letters (c : Nat) : C_String :=
  C_String.mk (some (List.replicate 100 c ++ [0]))

/-- The operators of `C_String` as the algorithms see them: `operator<`,
`operator==` and `std::hash<C_String>` (or `XXHash64`) over the byte-range hash
`H`; a comparison that is not defined counts as false. -/
def C_String_ops (H : List Nat → Nat) : ElementOps C_String where
  lt := fun a b => (a.operator_lt b).getD false
  eq := fun a b => (a.operator_eq b).getD false
  hash := fun s => s.hash H

/-! ## The benchmark body and registration (main.cpp 181-224) -/

/-- The two calls `generate_random_strings<T, almost_equal>(n, m)` that the
benchmark body makes one after the other (lines 202-203, with `m = 100`). -/
def generate_pair {T σ : Type} (R : StringRep T) (E : RandomSource σ) (almost_equal : Bool)
    (n m : Nat) : Option (List T × List T) :=
  match generate_random_strings R E almost_equal n m with
  | none => none
  | some rngstr1 =>
    match generate_random_strings R E almost_equal n m with
    | none => none
    | some rngstr2 => some (rngstr1, rngstr2)

/-- The three algorithm templates. -/
inductive Algorithm where
  | sort
  | unordered_multiset
  | hashtable_1
  deriving DecidableEq, Fintype

/-- The three element types that `main` instantiates `RegisterBenchmarks` with. -/
inductive Representation where
  | std_string
  | boomer_string
  | C_String
  deriving DecidableEq, Fintype

/-- One benchmark held by the benchmark library after registration: its name, the
function and element type it runs, its distribution, and the arguments added by
`bench->Arg(n)`, in order. -/
structure Benchmark where
  name : String
  algorithm : Algorithm
  size_known : Bool
  representation : Representation
  almost_equal : Bool
  args : List Int
  deriving DecidableEq

/-- The vector `functions` after the six calls of `append` (lines 189-194). -/
def functions : List (Algorithm × Bool × String) :=
  [(Algorithm.sort, true, "sort"),
   (Algorithm.unordered_multiset, true, "unordered_multiset"),
   (Algorithm.hashtable_1, true, "flat_hash_map"),
   (Algorithm.sort, false, "sort-unknown_size"),
   (Algorithm.unordered_multiset, false, "unordered_multiset-unknown_size"),
   (Algorithm.hashtable_1, false, "flat_hash_map-unknown_size")]

/-- The name built on line 200. -/
def benchmark_name (function_name rep_name : String) (almost_equal : Bool) : String :=
  (((function_name.append "/").append rep_name).append "/").append
    (if almost_equal then "almost_equal" else "random") |>.append "/100"

/-- The loop `for (long n = 1024; n <= 32 * 1024 * 1024; n *= 2) bench->Arg(n);`
started at `n` with the arguments added so far; `none` when `fuel` passes do not
reach the end of the loop. -/
def arg_loop : Nat → Int → List Int → Option (List Int)
  | 0, _, _ => none
  | fuel + 1, n, args =>
    if n ≤ 32 * 1024 * 1024 then arg_loop fuel (n * 2) (args ++ [n]) else some args

/-- The lambda `registerBenchmarks.operator()<almost_equal>()`: one
`benchmark::RegisterBenchmark` per entry of `functions`, appended to the
library's list. -/
def registerBenchmarks (fuel : Nat) (rep : Representation) (rep_name : String)
    (almost_equal : Bool) :
    List (Algorithm × Bool × String) → List Benchmark → Option (List Benchmark)
  | [], registry => some registry
  | (algorithm, size_known, function_name) :: rest, registry =>
    match arg_loop fuel 1024 [] with
    | none => none
    | some args =>
      registerBenchmarks fuel rep rep_name almost_equal rest
        (registry ++ [{ name := benchmark_name function_name rep_name almost_equal
                        algorithm := algorithm
                        size_known := size_known
                        representation := rep
                        almost_equal := almost_equal
                        args := args }])

/-- The function `RegisterBenchmarks<T>(rep_name)`: the distribution `random`
first, then `almost_equal`. -/
def RegisterBenchmarks (fuel : Nat) (rep : Representation) (rep_name : String)
    (registry : List Benchmark) : Option (List Benchmark) :=
  match registerBenchmarks fuel rep rep_name false functions registry with
  | none => none
  | some registry1 => registerBenchmarks fuel rep rep_name true functions registry1

/-- The three registration calls of `main` (lines 221-223), from an empty library. -/
def main_registrations (fuel : Nat) : Option (List Benchmark) :=
  match RegisterBenchmarks fuel Representation.std_string "std::string" [] with
  | none => none
  | some r1 =>
    match RegisterBenchmarks fuel Representation.boomer_string "boomer_string" r1 with
    | none => none
    | some r2 => RegisterBenchmarks fuel Representation.C_String "C_string" r2

/-- The algorithm part of a benchmark name, as the claim about registration reads
it: the name given to `append` for the algorithm and its `size_known` setting. -/
def function_label : Algorithm → Bool → String
  | Algorithm.sort, true => "sort"
  | Algorithm.unordered_multiset, true => "unordered_multiset"
  | Algorithm.hashtable_1, true => "flat_hash_map"
  | Algorithm.sort, false => "sort-unknown_size"
  | Algorithm.unordered_multiset, false => "unordered_multiset-unknown_size"
  | Algorithm.hashtable_1, false => "flat_hash_map-unknown_size"

/-- The representation part of a benchmark name: the argument that `main` passes
for the element type. -/
def representation_label : Representation → String
  | Representation.std_string => "std::string"
  | Representation.boomer_string => "boomer_string"
  | Representation.C_String => "C_string"

/-- The sizes `2 ^ 10, 2 ^ 11, ..., 2 ^ 25`. -/
def size_sweep : List Int :=
  (List.range 16).map (fun k => (2 : Int) ^ (k + 10))

/-- The pointer ranges that the loop body hands to `std::generate` for the element
`str` lie inside its buffer: `[0, size - 4)` and `[size - 4, size)` under
AlmostEqual, `[0, size)` under Random. -/
def fill_ranges_valid {T : Type} (R : StringRep T) (almost_equal : Bool) (str : T) : Prop :=
  if almost_equal then
    (0 : Int) ≤ (R.size str : Int) - 4 ∧ (R.size str : Int) - 4 ≤ (R.size str : Int) ∧
      R.size str ≤ (R.data str).length
  else
    R.size str ≤ (R.data str).length

/-- Every element of `L` has the same bytes at the positions `[0, m - 4)`. -/
def common_front {T : Type} (R : StringRep T) (m : Nat) (L : List T) : Prop :=
  ∀ e ∈ L, ∀ e' ∈ L, (payload R e).take (m - 4) = (payload R e').take (m - 4)


/-! ## Vectors and sorting -/

theorem foldl_push_back {α : Type} (rng acc : List α) :
    rng.foldl push_back acc = acc ++ rng := by
  induction rng generalizing acc with
  | nil => simp
  | cons x xs ih => simp [List.foldl_cons, ih, push_back]

theorem SConstructVector_eq {α : Type} (size_known : Bool) (rng : List α) :
    SConstructVector size_known rng = rng := by
  cases size_known
  · simp [SConstructVector, SConstructVector_false, foldl_push_back]
  · simp [SConstructVector, SConstructVector_true]

theorem sort_insert_perm {α : Type} (K : ElementOps α) (x : α) (l : List α) :
    (sort_insert K x l).Perm (x :: l) := by
  induction l with
  | nil => simp [sort_insert]
  | cons y ys ih =>
    unfold sort_insert
    split
    · exact List.Perm.refl _
    · exact (List.Perm.cons y ih).trans (List.Perm.swap x y ys)

theorem std_sort_perm {α : Type} (K : ElementOps α) (l : List α) : (std_sort K l).Perm l := by
  induction l with
  | nil => simp [std_sort]
  | cons x xs ih => exact (sort_insert_perm K x (std_sort K xs)).trans (List.Perm.cons x ih)

theorem sort_insert_sorted {α : Type} [LinearOrder α] [DecidableEq α] (hash : α → Nat)
    (x : α) (l : List α) (h : l.Sorted (· ≤ ·)) :
    (sort_insert (ordered_ops hash) x l).Sorted (· ≤ ·) := by
  induction l with
  | nil => simp [sort_insert]
  | cons y ys ih =>
    rw [List.sorted_cons] at h
    unfold sort_insert
    split
    · rename_i hlt
      have hxy : x < y := of_decide_eq_true hlt
      refine List.sorted_cons.2 ⟨?_, List.sorted_cons.2 h⟩
      intro b hb
      rcases List.mem_cons.1 hb with rfl | hb
      · exact le_of_lt hxy
      · exact le_trans (le_of_lt hxy) (h.1 b hb)
    · rename_i hlt
      have hxy : ¬ x < y := fun hc => hlt (decide_eq_true hc)
      refine List.sorted_cons.2 ⟨?_, ih h.2⟩
      intro b hb
      rcases List.mem_cons.1 ((sort_insert_perm _ x ys).mem_iff.1 hb) with rfl | hb
      · exact not_lt.1 hxy
      · exact h.1 b hb

theorem std_sort_sorted {α : Type} [LinearOrder α] [DecidableEq α] (hash : α → Nat)
    (l : List α) : (std_sort (ordered_ops hash) l).Sorted (· ≤ ·) := by
  induction l with
  | nil => simp [std_sort]
  | cons x xs ih => exact sort_insert_sorted hash x (std_sort (ordered_ops hash) xs) ih

theorem vector_eq_iff {α : Type} [LinearOrder α] [DecidableEq α] (hash : α → Nat)
    (l₁ l₂ : List α) : vector_eq (ordered_ops hash) l₁ l₂ = true ↔ l₁ = l₂ := by
  induction l₁ generalizing l₂ with
  | nil => cases l₂ <;> simp [vector_eq]
  | cons x xs ih =>
    cases l₂ with
    | nil => simp [vector_eq]
    | cons y ys =>
      unfold vector_eq
      by_cases hxy : x = y
      · have he : (ordered_ops hash).eq x y = true := decide_eq_true hxy
        rw [if_pos he, ih]
        simp [hxy]
      · have he : ¬ (ordered_ops hash).eq x y = true := fun hc => hxy (of_decide_eq_true hc)
        rw [if_neg he]
        simp [hxy]

theorem vector_eq_length {α : Type} (K : ElementOps α) (l₁ l₂ : List α)
    (h : vector_eq K l₁ l₂ = true) : l₁.length = l₂.length := by
  induction l₁ generalizing l₂ with
  | nil =>
    cases l₂ with
    | nil => rfl
    | cons y ys => simp [vector_eq] at h
  | cons x xs ih =>
    cases l₂ with
    | nil => simp [vector_eq] at h
    | cons y ys =>
      unfold vector_eq at h
      split at h
      · simp [ih ys h]
      · cases h

/-- The sort-based algorithm decides whether the two sequences are permutations
of each other. -/
theorem sort_true_iff_perm {α : Type} [LinearOrder α] [DecidableEq α] (hash : α → Nat)
    (size_known : Bool) (A B : List α) :
    compare_multiset_sort (ordered_ops hash) size_known A B = true ↔ A.Perm B := by
  simp only [compare_multiset_sort, SConstructVector_eq, vector_eq_iff]
  constructor
  · intro h
    exact ((std_sort_perm _ A).symm.trans (List.Perm.of_eq h)).trans (std_sort_perm _ B)
  · intro h
    exact List.eq_of_perm_of_sorted
      (((std_sort_perm _ A).trans h).trans (std_sort_perm _ B).symm)
      (std_sort_sorted hash A) (std_sort_sorted hash B)

/-- Whatever the operators of the element type, the sort-based algorithm returns
false on sequences of different lengths. -/
theorem sort_false_of_length_ne {α : Type} (K : ElementOps α) (size_known : Bool)
    (A B : List α) (hne : A.length ≠ B.length) :
    compare_multiset_sort K size_known A B = false := by
  rw [← Bool.not_eq_true]
  intro h
  simp only [compare_multiset_sort, SConstructVector_eq] at h
  have hlen := vector_eq_length K _ _ h
  rw [(std_sort_perm K A).length_eq, (std_sort_perm K B).length_eq] at hlen
  exact hne hlen

/-! ## The hash multiset -/

theorem find_index_lt {α : Type} (p : α → Bool) (l : List α) (i : Nat)
    (h : find_index p l = some i) : i < l.length := by
  induction l generalizing i with
  | nil => simp [find_index] at h
  | cons y ys ih =>
    unfold find_index at h
    split at h
    · cases h
      simp
    · cases hrec : find_index p ys with
      | none => simp [hrec] at h
      | some j =>
        simp only [hrec, Option.map_some', Option.some.injEq] at h
        have := ih j hrec
        subst h
        simpa using this

/-- When `p` accepts exactly the elements identical to `x`, the scan finds the
first occurrence of `x`. -/
theorem find_index_exact {α : Type} [DecidableEq α] (p : α → Bool) (x : α) (l : List α)
    (hp : ∀ y ∈ l, p y = true ↔ y = x) :
    find_index p l = if x ∈ l then some (l.indexOf x) else none := by
  induction l with
  | nil => simp [find_index]
  | cons y ys ih =>
    have hrest : ∀ z ∈ ys, p z = true ↔ z = x := fun z hz => hp z (List.mem_cons_of_mem _ hz)
    unfold find_index
    by_cases hyx : y = x
    · have hpy : p y = true := (hp y (List.mem_cons_self _ _)).2 hyx
      subst hyx
      simp [hpy]
    · have hpy : ¬ p y = true := fun hc => hyx ((hp y (List.mem_cons_self _ _)).1 hc)
      have hxy : ¬ x = y := fun hc => hyx hc.symm
      rw [if_neg hpy, ih hrest]
      by_cases hmem : x ∈ ys
      · simp [hmem, hxy, List.indexOf_cons_ne _ hyx]
      · simp [hmem, hxy]

theorem eraseIdx_indexOf {α : Type} [DecidableEq α] (x : α) (l : List α) :
    l.eraseIdx (l.indexOf x) = l.erase x := by
  induction l with
  | nil => simp
  | cons y ys ih =>
    by_cases hxy : y = x
    · subst hxy
      simp
    · have hne : ¬ (y == x) = true := by simpa using hxy
      simp [List.indexOf_cons, List.erase_cons, hne, ih]

theorem foldl_insert_elems {α : Type} (P : RehashPolicy) (rng : List α)
    (s : unordered_multiset α) :
    (rng.foldl (unordered_multiset.insert P) s).elems = rng.reverse ++ s.elems := by
  induction rng generalizing s with
  | nil => simp
  | cons x xs ih => simp [List.foldl_cons, ih, unordered_multiset.insert]

/-- When `operator==` is exact between the looked-up and the stored elements,
`find` returns the first stored occurrence, whatever the buckets. -/
theorem find_of_exact {α : Type} [DecidableEq α] (K : ElementOps α) (s : unordered_multiset α)
    (a : α) (hself : K.eq a a = true) (hex : ∀ y ∈ s.elems, K.eq a y = true → a = y) :
    s.find K a = if a ∈ s.elems then some (s.elems.indexOf a) else none := by
  unfold unordered_multiset.find
  apply find_index_exact
  intro y hy
  constructor
  · intro h
    rw [Bool.and_eq_true] at h
    exact (hex y hy h.2).symm
  · intro h
    subst h
    simp [hself]

/-- With an exact `operator==` the removal loop succeeds exactly when every
element is needed at most as often as it is stored. -/
theorem unordered_multiset_loop_iff {α : Type} [DecidableEq α] (K : ElementOps α)
    (A : List α) (s : unordered_multiset α) (hself : ∀ x ∈ A, K.eq x x = true)
    (hex : ∀ x ∈ A, ∀ y ∈ s.elems, K.eq x y = true → x = y) :
    unordered_multiset_loop K s A = true ↔ ∀ x, A.count x ≤ s.elems.count x := by
  induction A generalizing s with
  | nil => simp [unordered_multiset_loop]
  | cons a as ih =>
    unfold unordered_multiset_loop
    rw [find_of_exact K s a (hself a (List.mem_cons_self _ _))
      (hex a (List.mem_cons_self _ _))]
    by_cases ha : a ∈ s.elems
    · have hpos : 0 < s.elems.count a := List.count_pos_iff.2 ha
      have hself' : ∀ x ∈ as, K.eq x x = true :=
        fun x hx => hself x (List.mem_cons_of_mem _ hx)
      have hex' : ∀ x ∈ as, ∀ y ∈ (s.erase (s.elems.indexOf a)).elems,
          K.eq x y = true → x = y := by
        intro x hx y hy
        exact hex x (List.mem_cons_of_mem _ hx) y (List.mem_of_mem_eraseIdx hy)
      simp only [ha, if_true]
      rw [ih _ hself' hex']
      simp only [unordered_multiset.erase, eraseIdx_indexOf]
      constructor
      · intro h x
        have hx := h x
        by_cases hax : a = x
        · subst hax
          rw [List.count_erase_self] at hx
          rw [List.count_cons_self]
          omega
        · rw [List.count_erase_of_ne (Ne.symm hax)] at hx
          rw [List.count_cons_of_ne (Ne.symm hax)]
          exact hx
      · intro h x
        have hx := h x
        by_cases hax : a = x
        · subst hax
          rw [List.count_erase_self]
          rw [List.count_cons_self] at hx
          omega
        · rw [List.count_erase_of_ne (Ne.symm hax)]
          rw [List.count_cons_of_ne (Ne.symm hax)] at hx
          exact hx
    · simp only [ha, if_false]
      constructor
      · intro h
        cases h
      · intro h
        have h0 : s.elems.count a = 0 := List.count_eq_zero.2 ha
        have := h a
        rw [List.count_cons_self, h0] at this
        omega

theorem exact_on_self {α : Type} (K : ElementOps α) (L : List α) (h : K.exact_on L) :
    ∀ x ∈ L, K.eq x x = true :=
  fun x hx => (h x hx x hx).2 rfl

theorem ordered_ops_exact_on {α : Type} [LinearOrder α] [DecidableEq α] (hash : α → Nat)
    (L : List α) : (ordered_ops hash).exact_on L := by
  intro x _ y _
  exact decide_eq_true_iff

theorem unordered_multiset_true_iff {α : Type} [DecidableEq α] (K : ElementOps α)
    (P : RehashPolicy) (size_known : Bool) (A B : List α) (hex : K.exact_on (A ++ B)) :
    compare_multiset_unordered_multiset K P size_known A B = true ↔
      ∀ x, A.count x ≤ B.count x := by
  unfold compare_multiset_unordered_multiset
  have hself : ∀ x ∈ A, K.eq x x = true :=
    fun x hx => exact_on_self K _ hex x (List.mem_append_left _ hx)
  rw [unordered_multiset_loop_iff K A _ hself]
  · simp only [foldl_insert_elems, List.count_append, List.count_reverse]
    cases size_known <;> simp [unordered_multiset.empty, unordered_multiset.reserve]
  · intro x hx y hy
    rw [foldl_insert_elems] at hy
    have hyB : y ∈ B := by
      cases size_known <;>
        simpa [unordered_multiset.empty, unordered_multiset.reserve] using hy
    exact (hex x (List.mem_append_left _ hx) y (List.mem_append_right _ hyB)).1

/-- Every successful `find` is followed by one `erase`, so the removal loop can
only succeed when the multiset holds at least as many elements as are asked for,
whatever the operators of the element type. -/
theorem unordered_multiset_loop_length {α : Type} (K : ElementOps α) (A : List α)
    (s : unordered_multiset α) (h : unordered_multiset_loop K s A = true) :
    A.length ≤ s.elems.length := by
  induction A generalizing s with
  | nil => simp
  | cons a as ih =>
    unfold unordered_multiset_loop at h
    cases hf : s.find K a with
    | none => simp [hf] at h
    | some it =>
      simp only [hf] at h
      have hlt : it < s.elems.length := find_index_lt _ _ _ hf
      have := ih _ h
      simp only [unordered_multiset.erase, List.length_eraseIdx, hlt, if_true] at this
      simp only [List.length_cons]
      omega

theorem unordered_multiset_false_of_longer {α : Type} (K : ElementOps α) (P : RehashPolicy)
    (size_known : Bool) (A B : List α) (hlt : B.length < A.length) :
    compare_multiset_unordered_multiset K P size_known A B = false := by
  rw [← Bool.not_eq_true]
  intro h
  unfold compare_multiset_unordered_multiset at h
  have := unordered_multiset_loop_length K A _ h
  rw [foldl_insert_elems] at this
  have hempty : (if size_known then (unordered_multiset.empty P :
      unordered_multiset α).reserve P A.length else unordered_multiset.empty P).elems = [] := by
    cases size_known <;> rfl
  simp only [List.length_append, List.length_reverse, hempty, List.length_nil] at this
  omega

/-- Inclusion of counts between lists of the same length forces equal counts. -/
theorem count_eq_of_count_le {α : Type} [DecidableEq α] (A B : List α)
    (hlen : A.length = B.length) (h : ∀ x, A.count x ≤ B.count x) :
    ∀ x, A.count x = B.count x := by
  have hle : (A : Multiset α) ≤ (B : Multiset α) :=
    Multiset.le_iff_count.2 (fun a => by simpa using h a)
  have heq : (A : Multiset α) = (B : Multiset α) :=
    Multiset.eq_of_le_of_card_le hle (by simp [hlen])
  intro x
  have := congrArg (Multiset.count x) heq
  simpa using this

/-! ## The counting map -/

namespace count_table

theorem lookup_assign_self {α : Type} [DecidableEq α] (k : α) (v : Nat) (l : List (α × Nat)) :
    lookup k (assign k v l) = (lookup k l).map (fun _ => v) := by
  induction l with
  | nil => simp [assign, lookup]
  | cons p rest ih =>
    obtain ⟨k', v'⟩ := p
    by_cases h : k' = k
    · simp [assign, lookup, h]
    · simp [assign, lookup, h, ih]

theorem lookup_assign_of_ne {α : Type} [DecidableEq α] {k k' : α} (hne : k' ≠ k) (v : Nat)
    (l : List (α × Nat)) : lookup k' (assign k v l) = lookup k' l := by
  induction l with
  | nil => simp [assign, lookup]
  | cons p rest ih =>
    obtain ⟨k₀, v₀⟩ := p
    by_cases h : k₀ = k
    · subst h
      have h' : ¬ k₀ = k' := fun e => hne e.symm
      simp [assign, lookup, h']
    · by_cases h' : k₀ = k'
      · subst h'
        simp [assign, lookup, h]
      · simp [assign, lookup, h, h', ih]

theorem deref_subscript {α : Type} [DecidableEq α] (m : count_table α) (k k' : α) :
    (m.subscript k).deref k' = m.deref k' := by
  unfold subscript
  cases hk : lookup k m.slots with
  | some v => rfl
  | none =>
    by_cases h : k = k'
    · subst h
      simp [deref, lookup, hk]
    · simp [deref, lookup, h]

theorem lookup_subscript_isSome {α : Type} [DecidableEq α] (m : count_table α) (k : α) :
    (lookup k (m.subscript k).slots).isSome = true := by
  unfold subscript
  cases hk : lookup k m.slots with
  | some v => simp [hk]
  | none => simp [lookup]

theorem getD_lookup_assign_self {α : Type} [DecidableEq α] (k : α) (v : Nat)
    (l : List (α × Nat)) (h : (lookup k l).isSome = true) :
    (lookup k (assign k v l)).getD 0 = v := by
  rw [Option.isSome_iff_exists] at h
  obtain ⟨w, hw⟩ := h
  rw [lookup_assign_self, hw]
  rfl

theorem deref_pre_increment {α : Type} [DecidableEq α] (m : count_table α) (k k' : α) :
    (m.pre_increment k).deref k' =
      if k' = k then (m.deref k + 1) % SIZE_MOD else m.deref k' := by
  by_cases h : k' = k
  · subst h
    rw [if_pos rfl, ← deref_subscript m k' k']
    exact getD_lookup_assign_self k' _ _ (lookup_subscript_isSome m k')
  · simp only [pre_increment, deref, lookup_assign_of_ne h, if_neg h]
    exact deref_subscript m k k'

theorem post_decrement_fst {α : Type} [DecidableEq α] (m : count_table α) (k : α) :
    (m.post_decrement k).1 = m.deref k :=
  deref_subscript m k k

theorem deref_post_decrement {α : Type} [DecidableEq α] (m : count_table α) (k k' : α) :
    (m.post_decrement k).2.deref k' =
      if k' = k then (m.deref k + SIZE_MOD - 1) % SIZE_MOD else m.deref k' := by
  by_cases h : k' = k
  · subst h
    rw [if_pos rfl, ← deref_subscript m k' k']
    exact getD_lookup_assign_self k' _ _ (lookup_subscript_isSome m k')
  · simp only [post_decrement, deref, lookup_assign_of_ne h, if_neg h]
    exact deref_subscript m k k'

end count_table

/-- After the counting loop every count is the old count plus the number of
occurrences, as long as no `size_t` count can wrap around. -/
theorem deref_foldl_pre_increment {α : Type} [DecidableEq α] (A : List α)
    (m : count_table α) (hbound : ∀ k, m.deref k + A.count k < SIZE_MOD) (k : α) :
    (A.foldl count_table.pre_increment m).deref k = m.deref k + A.count k := by
  induction A generalizing m with
  | nil => simp
  | cons a as ih =>
    rw [List.foldl_cons]
    have hstep : ∀ x, (m.pre_increment a).deref x + as.count x = m.deref x + (a :: as).count x := by
      intro x
      rw [count_table.deref_pre_increment]
      by_cases hx : x = a
      · subst hx
        have hb := hbound x
        rw [List.count_cons_self] at hb ⊢
        rw [if_pos rfl, Nat.mod_eq_of_lt (by omega)]
        omega
      · rw [if_neg hx, List.count_cons_of_ne hx]
    rw [ih (m.pre_increment a) (fun x => by rw [hstep x]; exact hbound x)]
    exact hstep k

/-- The decrement loop succeeds exactly when every key is asked for at most as
often as its count allows. -/
theorem count_table_loop_iff {α : Type} [DecidableEq α] (B : List α) (m : count_table α)
    (hbound : ∀ k, m.deref k < SIZE_MOD) :
    count_table.loop m B = true ↔ ∀ x, B.count x ≤ m.deref x := by
  induction B generalizing m with
  | nil => simp [count_table.loop]
  | cons b bs ih =>
    unfold count_table.loop
    simp only [count_table.post_decrement_fst]
    by_cases h0 : m.deref b = 0
    · simp only [h0, if_true]
      constructor
      · intro h
        cases h
      · intro h
        have := h b
        rw [List.count_cons_self, h0] at this
        omega
    · have hb := hbound b
      have hdec : ∀ x, (m.post_decrement b).2.deref x =
          if x = b then m.deref b - 1 else m.deref x := by
        intro x
        rw [count_table.deref_post_decrement]
        by_cases hx : x = b
        · rw [if_pos hx, if_pos hx]
          have : m.deref b + SIZE_MOD - 1 = (m.deref b - 1) + SIZE_MOD := by omega
          rw [this, Nat.add_mod_right, Nat.mod_eq_of_lt (by omega)]
        · rw [if_neg hx, if_neg hx]
      have hbound' : ∀ k, (m.post_decrement b).2.deref k < SIZE_MOD := by
        intro k
        rw [hdec k]
        split
        · omega
        · exact hbound k
      simp only [h0, if_false]
      rw [ih _ hbound']
      constructor
      · intro h x
        have hx := h x
        rw [hdec x] at hx
        by_cases hxb : x = b
        · subst hxb
          rw [if_pos rfl] at hx
          rw [List.count_cons_self]
          omega
        · rw [if_neg hxb] at hx
          rw [List.count_cons_of_ne hxb]
          exact hx
      · intro h x
        have hx := h x
        rw [hdec x]
        by_cases hxb : x = b
        · subst hxb
          rw [List.count_cons_self] at hx
          rw [if_pos rfl]
          omega
        · rw [List.count_cons_of_ne hxb] at hx
          rw [if_neg hxb]
          exact hx

theorem deref_empty {α : Type} [DecidableEq α] (k : α) :
    (count_table.empty : count_table α).deref k = 0 := rfl

/-- For a first sequence whose length fits `size_t`, the table of counts
succeeds exactly when no element occurs more often in the second sequence. -/
theorem count_table_true_iff {α : Type} [DecidableEq α] (A B : List α)
    (hA : A.length < SIZE_MOD) :
    count_table.compare A B = true ↔ ∀ x, B.count x ≤ A.count x := by
  unfold count_table.compare
  have hcount : ∀ k, (A.foldl count_table.pre_increment
      (count_table.empty : count_table α)).deref k = A.count k := by
    intro k
    rw [deref_foldl_pre_increment, deref_empty, Nat.zero_add]
    intro x
    rw [deref_empty, Nat.zero_add]
    exact lt_of_le_of_lt (List.count_le_length x A) hA
  rw [count_table_loop_iff]
  · simp only [hcount]
  · intro k
    rw [hcount]
    exact lt_of_le_of_lt (List.count_le_length k A) hA

/-- Every element is reached with a positive remaining count exactly when no
element is asked for more often than `c` allows. -/
theorem earlier_count_iff {α : Type} [DecidableEq α] (B : List α) (c : α → Nat) :
    (∀ i (hi : i < B.length), (B.take i).count B[i] < c B[i]) ↔ ∀ x, B.count x ≤ c x := by
  induction B generalizing c with
  | nil => simp
  | cons b bs ih =>
    have key := ih (fun x => if x = b then c b - 1 else c x)
    constructor
    · intro h
      have h0 : 0 < c b := by
        have := h 0 (by simp)
        simpa using this
      have hrest : ∀ x, bs.count x ≤ (fun x => if x = b then c b - 1 else c x) x := by
        apply key.1
        intro i hi
        have := h (i + 1) (by simpa using hi)
        simp only [List.take_succ_cons, List.getElem_cons_succ] at this
        by_cases hb : bs[i] = b
        · rw [hb] at this ⊢
          rw [List.count_cons_self] at this
          simp only [if_true]
          omega
        · rw [List.count_cons_of_ne hb] at this
          simp only [hb, if_false]
          exact this
      intro x
      have hx := hrest x
      by_cases hxb : x = b
      · subst hxb
        simp only [if_true] at hx
        rw [List.count_cons_self]
        omega
      · simp only [hxb, if_false] at hx
        rw [List.count_cons_of_ne hxb]
        exact hx
    · intro h i hi
      have h0 : 0 < c b := by
        have := h b
        rw [List.count_cons_self] at this
        omega
      cases i with
      | zero => simpa using h0
      | succ j =>
        have hj : j < bs.length := by simpa using hi
        have hrest : ∀ x, bs.count x ≤ (fun x => if x = b then c b - 1 else c x) x := by
          intro x
          have hx := h x
          by_cases hxb : x = b
          · subst hxb
            rw [List.count_cons_self] at hx
            simp only [if_true]
            omega
          · rw [List.count_cons_of_ne hxb] at hx
            simp only [hxb, if_false]
            exact hx
        have := key.2 hrest j hj
        simp only [List.take_succ_cons, List.getElem_cons_succ]
        by_cases hb : bs[j] = b
        · rw [hb] at this ⊢
          simp only [if_true] at this
          rw [List.count_cons_self]
          omega
        · simp only [hb, if_false] at this
          rw [List.count_cons_of_ne hb]
          exact this

theorem size_t_fits_small (n : Nat) (h : n ≤ 1000) : n < SIZE_MOD := by
  unfold SIZE_MOD
  omega

/-! ## The counting map against the table of counts -/

namespace flat_hash_map

theorem set_count_at_keys {α : Type} (i v : Nat) (l : List (α × Nat)) :
    (set_count_at i v l).map Prod.fst = l.map Prod.fst := by
  induction l generalizing i with
  | nil => cases i <;> rfl
  | cons slot rest ih =>
    obtain ⟨k, w⟩ := slot
    cases i with
    | zero => rfl
    | succ j => simp [set_count_at, ih]

theorem lookup_of_find_index_none {α : Type} [DecidableEq α] (p : α → Bool) (k : α)
    (l : List (α × Nat)) (hp : ∀ y ∈ l.map Prod.fst, p y = true ↔ y = k)
    (h : find_index p (l.map Prod.fst) = none) : count_table.lookup k l = none := by
  induction l with
  | nil => rfl
  | cons slot rest ih =>
    obtain ⟨k', w⟩ := slot
    have hrest : ∀ y ∈ rest.map Prod.fst, p y = true ↔ y = k :=
      fun y hy => hp y (by simp only [List.map_cons, List.mem_cons]; exact Or.inr hy)
    simp only [List.map_cons, find_index] at h
    split at h
    · cases h
    · rename_i hpk
      have hne : ¬ k' = k := fun hc => hpk ((hp k' (by simp)).2 hc)
      cases hrec : find_index p (rest.map Prod.fst) with
      | some j => simp [hrec] at h
      | none => simp [count_table.lookup, hne, ih hrest hrec]

theorem lookup_of_find_index_some {α : Type} [DecidableEq α] (p : α → Bool) (k : α)
    (l : List (α × Nat)) (hp : ∀ y ∈ l.map Prod.fst, p y = true ↔ y = k) (i : Nat)
    (h : find_index p (l.map Prod.fst) = some i) :
    count_table.lookup k l = some (count_at i l) ∧
      ∀ v, count_table.assign k v l = set_count_at i v l := by
  induction l generalizing i with
  | nil => simp [find_index] at h
  | cons slot rest ih =>
    obtain ⟨k', w⟩ := slot
    have hrest : ∀ y ∈ rest.map Prod.fst, p y = true ↔ y = k :=
      fun y hy => hp y (by simp only [List.map_cons, List.mem_cons]; exact Or.inr hy)
    simp only [List.map_cons, find_index] at h
    split at h
    · rename_i hpk
      have hk : k' = k := (hp k' (by simp)).1 hpk
      cases h
      simp [count_table.lookup, count_table.assign, hk, count_at, set_count_at]
    · rename_i hpk
      have hne : ¬ k' = k := fun hc => hpk ((hp k' (by simp)).2 hc)
      cases hrec : find_index p (rest.map Prod.fst) with
      | none => simp [hrec] at h
      | some j =>
        simp only [hrec, Option.map_some', Option.some.injEq] at h
        subst h
        obtain ⟨h1, h2⟩ := ih hrest j hrec
        refine ⟨?_, ?_⟩
        · simp [count_table.lookup, hne, h1, count_at]
        · intro v
          simp [count_table.assign, hne, h2 v, set_count_at]

/-- With an exact `operator==` a probe accepts exactly the stored key that is
identical to the key looked up. -/
theorem hit_exact {α : Type} (K : ElementOps α) (P : ProbePolicy) (m : flat_hash_map α)
    (k : α) (hself : K.eq k k = true)
    (hex : ∀ y ∈ m.slots.map Prod.fst, K.eq k y = true → k = y) :
    ∀ y ∈ m.slots.map Prod.fst, m.hit K P k y = true ↔ y = k := by
  intro y hy
  unfold hit
  constructor
  · intro h
    rw [Bool.and_eq_true] at h
    exact (hex y hy h.2).symm
  · intro h
    subst h
    rw [P.same_place_self, hself]
    rfl

theorem pre_increment_slots {α : Type} [DecidableEq α] (K : ElementOps α) (P : ProbePolicy)
    (m : flat_hash_map α) (k : α) (hself : K.eq k k = true)
    (hex : ∀ y ∈ m.slots.map Prod.fst, K.eq k y = true → k = y) :
    (m.pre_increment K P k).slots =
      (count_table.pre_increment (count_table.mk m.slots) k).slots := by
  have hp := hit_exact K P m k hself hex
  cases hf : find_index (m.hit K P k) (m.slots.map Prod.fst) with
  | none =>
    have hl := lookup_of_find_index_none _ k m.slots hp hf
    simp [pre_increment, subscript, hf, count_table.pre_increment, count_table.subscript, hl,
      count_table.deref, count_table.lookup, count_table.assign, count_at, set_count_at]
  | some i =>
    obtain ⟨hl, ha⟩ := lookup_of_find_index_some _ k m.slots hp i hf
    simp [pre_increment, subscript, hf, count_table.pre_increment, count_table.subscript, hl,
      count_table.deref, ha]

theorem post_decrement_slots {α : Type} [DecidableEq α] (K : ElementOps α) (P : ProbePolicy)
    (m : flat_hash_map α) (k : α) (hself : K.eq k k = true)
    (hex : ∀ y ∈ m.slots.map Prod.fst, K.eq k y = true → k = y) :
    (m.post_decrement K P k).1 = (count_table.post_decrement (count_table.mk m.slots) k).1 ∧
      (m.post_decrement K P k).2.slots =
        (count_table.post_decrement (count_table.mk m.slots) k).2.slots := by
  have hp := hit_exact K P m k hself hex
  cases hf : find_index (m.hit K P k) (m.slots.map Prod.fst) with
  | none =>
    have hl := lookup_of_find_index_none _ k m.slots hp hf
    simp [post_decrement, subscript, hf, count_table.post_decrement, count_table.subscript, hl,
      count_table.deref, count_table.lookup, count_table.assign, count_at, set_count_at]
  | some i =>
    obtain ⟨hl, ha⟩ := lookup_of_find_index_some _ k m.slots hp i hf
    simp [post_decrement, subscript, hf, count_table.post_decrement, count_table.subscript,
      hl, count_table.deref, ha]

theorem subscript_keys {α : Type} (K : ElementOps α) (P : ProbePolicy) (m : flat_hash_map α)
    (k : α) : ∀ y ∈ (m.subscript K P k).1.slots.map Prod.fst,
      y = k ∨ y ∈ m.slots.map Prod.fst := by
  intro y hy
  unfold subscript at hy
  split at hy
  · exact Or.inr hy
  · simp only [List.map_cons, List.mem_cons] at hy
    exact hy

theorem pre_increment_keys {α : Type} (K : ElementOps α) (P : ProbePolicy)
    (m : flat_hash_map α) (k : α) : ∀ y ∈ (m.pre_increment K P k).slots.map Prod.fst,
      y = k ∨ y ∈ m.slots.map Prod.fst := by
  intro y hy
  simp only [pre_increment, set_count_at_keys] at hy
  exact subscript_keys K P m k y hy

theorem post_decrement_keys {α : Type} (K : ElementOps α) (P : ProbePolicy)
    (m : flat_hash_map α) (k : α) : ∀ y ∈ (m.post_decrement K P k).2.slots.map Prod.fst,
      y = k ∨ y ∈ m.slots.map Prod.fst := by
  intro y hy
  simp only [post_decrement, set_count_at_keys] at hy
  exact subscript_keys K P m k y hy

end flat_hash_map

theorem count_table_eq_of_slots {α : Type} (t : count_table α) (l : List (α × Nat))
    (h : l = t.slots) : count_table.mk l = t := by
  cases t
  simp only at h
  rw [h]

/-- With an exact `operator==` on a list `L` that holds all keys, the counting
loop of the map stores the counts of the table of counts. -/
theorem foldl_pre_increment_slots {α : Type} [DecidableEq α] (K : ElementOps α)
    (P : ProbePolicy) (L : List α) (hL : K.exact_on L) (A : List α) (hA : ∀ a ∈ A, a ∈ L)
    (m : flat_hash_map α) (hm : ∀ y ∈ m.slots.map Prod.fst, y ∈ L) :
    (A.foldl (flat_hash_map.pre_increment K P) m).slots =
        (A.foldl count_table.pre_increment (count_table.mk m.slots)).slots ∧
      ∀ y ∈ (A.foldl (flat_hash_map.pre_increment K P) m).slots.map Prod.fst, y ∈ L := by
  induction A generalizing m with
  | nil => exact ⟨rfl, hm⟩
  | cons a as ih =>
    have haL : a ∈ L := hA a (List.mem_cons_self _ _)
    have hstep := flat_hash_map.pre_increment_slots K P m a ((hL a haL a haL).2 rfl)
      (fun y hy => (hL a haL y (hm y hy)).1)
    have hkeys : ∀ y ∈ (m.pre_increment K P a).slots.map Prod.fst, y ∈ L := by
      intro y hy
      rcases flat_hash_map.pre_increment_keys K P m a y hy with h | h
      · rw [h]
        exact haL
      · exact hm y h
    have := ih (fun x hx => hA x (List.mem_cons_of_mem _ hx)) (m.pre_increment K P a) hkeys
    rw [List.foldl_cons, List.foldl_cons, ← count_table_eq_of_slots _ _ hstep]
    exact this

theorem hashtable_loop_eq {α : Type} [DecidableEq α] (K : ElementOps α) (P : ProbePolicy)
    (L : List α) (hL : K.exact_on L) (B : List α) (hB : ∀ b ∈ B, b ∈ L)
    (m : flat_hash_map α) (hm : ∀ y ∈ m.slots.map Prod.fst, y ∈ L) :
    hashtable_loop K P m B = count_table.loop (count_table.mk m.slots) B := by
  induction B generalizing m with
  | nil => rfl
  | cons b bs ih =>
    have hbL : b ∈ L := hB b (List.mem_cons_self _ _)
    obtain ⟨h1, h2⟩ := flat_hash_map.post_decrement_slots K P m b ((hL b hbL b hbL).2 rfl)
      (fun y hy => (hL b hbL y (hm y hy)).1)
    have hkeys : ∀ y ∈ (m.post_decrement K P b).2.slots.map Prod.fst, y ∈ L := by
      intro y hy
      rcases flat_hash_map.post_decrement_keys K P m b y hy with h | h
      · rw [h]
        exact hbL
      · exact hm y h
    unfold hashtable_loop count_table.loop
    simp only [h1]
    rw [ih (fun x hx => hB x (List.mem_cons_of_mem _ hx)) _ hkeys,
      count_table_eq_of_slots _ _ h2]

/-- With an exact `operator==` on the elements of both sequences the counting-map
algorithm computes what the table of counts computes, whatever the hash, the
table policy and `size_known`. -/
theorem hashtable_eq_count_table {α : Type} [DecidableEq α] (K : ElementOps α)
    (P : ProbePolicy) (size_known : Bool) (A B : List α) (hex : K.exact_on (A ++ B)) :
    compare_multiset_hashtable_1 K P size_known A B = count_table.compare A B := by
  unfold compare_multiset_hashtable_1 count_table.compare
  have hinit : (if size_known then (flat_hash_map.empty P : flat_hash_map α).reserve P A.length
      else flat_hash_map.empty P).slots = [] := by
    cases size_known <;> rfl
  obtain ⟨hslots, hkeys⟩ := foldl_pre_increment_slots K P (A ++ B) hex A
    (fun a ha => List.mem_append_left _ ha)
    (if size_known then (flat_hash_map.empty P : flat_hash_map α).reserve P A.length
      else flat_hash_map.empty P) (by rw [hinit]; simp)
  rw [hashtable_loop_eq K P (A ++ B) hex B (fun b hb => List.mem_append_right _ hb) _ hkeys,
    count_table_eq_of_slots _ _ hslots, hinit]
  rfl

theorem hashtable_true_iff {α : Type} [DecidableEq α] (K : ElementOps α) (P : ProbePolicy)
    (size_known : Bool) (A B : List α) (hex : K.exact_on (A ++ B))
    (hA : A.length < SIZE_MOD) :
    compare_multiset_hashtable_1 K P size_known A B = true ↔ ∀ x, B.count x ≤ A.count x := by
  rw [hashtable_eq_count_table K P size_known A B hex, count_table_true_iff A B hA]

/-- Overwriting one count changes the sum of the stored counts by the difference. -/
theorem slot_sum_set_count_at {α : Type} (i v : Nat) (l : List (α × Nat)) (hi : i < l.length) :
    ((flat_hash_map.set_count_at i v l).map Prod.snd).sum + flat_hash_map.count_at i l =
      (l.map Prod.snd).sum + v := by
  induction l generalizing i with
  | nil => simp at hi
  | cons slot rest ih =>
    obtain ⟨k, w⟩ := slot
    cases i with
    | zero =>
      simp only [flat_hash_map.set_count_at, flat_hash_map.count_at, List.map_cons,
        List.sum_cons]
      omega
    | succ j =>
      have := ih j (by simpa using hi)
      simp only [flat_hash_map.set_count_at, flat_hash_map.count_at, List.map_cons,
        List.sum_cons]
      omega

theorem subscript_sum {α : Type} (K : ElementOps α) (P : ProbePolicy) (m : flat_hash_map α)
    (k : α) : (m.subscript K P k).2 < (m.subscript K P k).1.slots.length ∧
      ((m.subscript K P k).1.slots.map Prod.snd).sum = (m.slots.map Prod.snd).sum := by
  unfold flat_hash_map.subscript
  cases hf : find_index (m.hit K P k) (m.slots.map Prod.fst) with
  | none => simp
  | some i =>
    have := find_index_lt _ _ _ hf
    simp only [List.length_map] at this
    exact ⟨this, rfl⟩

theorem pre_increment_sum {α : Type} (K : ElementOps α) (P : ProbePolicy)
    (m : flat_hash_map α) (k : α) (h : (m.slots.map Prod.snd).sum + 1 < SIZE_MOD) :
    ((m.pre_increment K P k).slots.map Prod.snd).sum = (m.slots.map Prod.snd).sum + 1 := by
  obtain ⟨hi, hs⟩ := subscript_sum K P m k
  have h0 := slot_sum_set_count_at (m.subscript K P k).2 0 (m.subscript K P k).1.slots hi
  have h1 := slot_sum_set_count_at (m.subscript K P k).2
    ((flat_hash_map.count_at (m.subscript K P k).2 (m.subscript K P k).1.slots + 1) % SIZE_MOD)
    (m.subscript K P k).1.slots hi
  have hmod : (flat_hash_map.count_at (m.subscript K P k).2 (m.subscript K P k).1.slots + 1)
      % SIZE_MOD =
      flat_hash_map.count_at (m.subscript K P k).2 (m.subscript K P k).1.slots + 1 :=
    Nat.mod_eq_of_lt (by omega)
  rw [hmod] at h1
  show ((flat_hash_map.set_count_at (m.subscript K P k).2
    ((flat_hash_map.count_at (m.subscript K P k).2 (m.subscript K P k).1.slots + 1) % SIZE_MOD)
    (m.subscript K P k).1.slots).map Prod.snd).sum = _
  rw [hmod]
  omega

theorem foldl_pre_increment_sum {α : Type} (K : ElementOps α) (P : ProbePolicy) (A : List α)
    (m : flat_hash_map α) (h : (m.slots.map Prod.snd).sum + A.length < SIZE_MOD) :
    ((A.foldl (flat_hash_map.pre_increment K P) m).slots.map Prod.snd).sum =
      (m.slots.map Prod.snd).sum + A.length := by
  induction A generalizing m with
  | nil => simp
  | cons a as ih =>
    simp only [List.length_cons] at h
    have hstep := pre_increment_sum K P m a (by omega)
    rw [List.foldl_cons, ih _ (by rw [hstep]; omega), hstep, List.length_cons]
    omega

/-- Every successful decrement takes one from the sum of the counts, so the
decrement loop can only succeed on at most that many elements, whatever the
operators of the element type. -/
theorem hashtable_loop_length {α : Type} (K : ElementOps α) (P : ProbePolicy) (B : List α)
    (m : flat_hash_map α) (hm : (m.slots.map Prod.snd).sum < SIZE_MOD)
    (h : hashtable_loop K P m B = true) : B.length ≤ (m.slots.map Prod.snd).sum := by
  induction B generalizing m with
  | nil => simp
  | cons b bs ih =>
    unfold hashtable_loop at h
    obtain ⟨hi, hs⟩ := subscript_sum K P m b
    have h0 := slot_sum_set_count_at (m.subscript K P b).2 0 (m.subscript K P b).1.slots hi
    by_cases hz : (m.post_decrement K P b).1 = 0
    · simp [hz] at h
    · simp only [hz, if_false] at h
      have hold : (m.post_decrement K P b).1 =
          flat_hash_map.count_at (m.subscript K P b).2 (m.subscript K P b).1.slots := rfl
      have hmod : (flat_hash_map.count_at (m.subscript K P b).2 (m.subscript K P b).1.slots
          + SIZE_MOD - 1) % SIZE_MOD =
          flat_hash_map.count_at (m.subscript K P b).2 (m.subscript K P b).1.slots - 1 := by
        have he : flat_hash_map.count_at (m.subscript K P b).2 (m.subscript K P b).1.slots
            + SIZE_MOD - 1 =
            (flat_hash_map.count_at (m.subscript K P b).2 (m.subscript K P b).1.slots - 1)
              + SIZE_MOD := by omega
        rw [he, Nat.add_mod_right, Nat.mod_eq_of_lt (by omega)]
      have h1 := slot_sum_set_count_at (m.subscript K P b).2
        ((flat_hash_map.count_at (m.subscript K P b).2 (m.subscript K P b).1.slots
          + SIZE_MOD - 1) % SIZE_MOD) (m.subscript K P b).1.slots hi
      rw [hmod] at h1
      have hsum : ((m.post_decrement K P b).2.slots.map Prod.snd).sum + 1 =
          (m.slots.map Prod.snd).sum := by
        show ((flat_hash_map.set_count_at (m.subscript K P b).2
          ((flat_hash_map.count_at (m.subscript K P b).2 (m.subscript K P b).1.slots
            + SIZE_MOD - 1) % SIZE_MOD) (m.subscript K P b).1.slots).map Prod.snd).sum + 1 = _
        rw [hmod]
        omega
      have := ih _ (by omega) h
      simp only [List.length_cons]
      omega

theorem hashtable_false_of_longer {α : Type} (K : ElementOps α) (P : ProbePolicy)
    (size_known : Bool) (A B : List α) (hfit : A.length < SIZE_MOD)
    (hlt : A.length < B.length) : compare_multiset_hashtable_1 K P size_known A B = false := by
  rw [← Bool.not_eq_true]
  intro h
  unfold compare_multiset_hashtable_1 at h
  have hinit : ((if size_known then (flat_hash_map.empty P : flat_hash_map α).reserve P
      A.length else flat_hash_map.empty P).slots.map Prod.snd).sum = 0 := by
    cases size_known <;> rfl
  have hsum := foldl_pre_increment_sum K P A _ (by rw [hinit]; omega)
  rw [hinit] at hsum
  have := hashtable_loop_length K P B _ (by rw [hsum]; omega) h
  omega

/-! ## The generator -/

theorem std_string_rep_lawful : std_string_rep.Lawful where
  data_store := fun _ _ _ => rfl
  size_store := fun _ _ h => h
  size_resize := by
    intro m s h
    simp only [std_string_rep, std_string.resize, Option.some.injEq] at h
    subst h
    simp [std_string_rep]

theorem boomer_string_rep_lawful (m : Nat) : (boomer_string_rep m).Lawful where
  data_store := fun _ _ _ => rfl
  size_store := fun _ _ _ => rfl
  size_resize := by
    intro k s h
    simp only [boomer_string_rep, boomer_string.resize] at h
    split at h
    · rename_i hk
      simp only [Option.some.injEq] at h
      subst h
      simp [boomer_string_rep, hk]
    · cases h

theorem C_String_rep_lawful : C_String_rep.Lawful where
  data_store := by
    intro s buf h
    rcases s with ⟨_ | b⟩
    · simp only [C_String_rep, Option.getD_none, List.length_nil, List.length_eq_zero] at h
      simp [C_String_rep, h]
    · simp [C_String_rep]
  size_store := fun _ _ _ => rfl
  size_resize := by
    intro k s h
    simp only [C_String_rep, C_String.resize] at h
    split at h
    · rename_i hk
      simp only [Option.some.injEq] at h
      subst h
      simp [C_String_rep, C_String.size, hk]
    · cases h

theorem draw_list_length {σ : Type} (g : σ → Nat × σ) (count : Nat) (s : σ) :
    (draw_list g count s).1.length = count := by
  induction count generalizing s with
  | zero => rfl
  | succ c ih => simp [draw_list, ih]

theorem draw_list_forall {σ : Type} (g : σ → Nat × σ) (P : Nat → Prop) (hP : ∀ s, P (g s).1)
    (count : Nat) (s : σ) : ∀ b ∈ (draw_list g count s).1, P b := by
  induction count generalizing s with
  | zero => simp [draw_list]
  | succ c ih =>
    intro b hb
    simp only [draw_list, List.mem_cons] at hb
    rcases hb with rfl | hb
    · exact hP s
    · exact ih _ b hb

/-- The loop of `std::generate` overwrites exactly the window `[first, first + count)`
with the successive draws. -/
theorem std_generate_eq {σ : Type} (g : σ → Nat × σ) (count first : Nat) (buf : List Nat)
    (s : σ) (h : first + count ≤ buf.length) :
    std_generate g count first buf s =
      (buf.take first ++ (draw_list g count s).1 ++ buf.drop (first + count),
        (draw_list g count s).2) := by
  induction count generalizing first buf s with
  | zero => simp [std_generate, draw_list]
  | succ c ih =>
    have hlt : first < buf.length := by omega
    rw [std_generate, ih (first + 1) _ _ (by rw [List.length_set]; omega)]
    have htake : ((buf.set first (g s).1).take (first + 1)) = buf.take first ++ [(g s).1] := by
      rw [List.set_eq_take_append_cons_drop, if_pos hlt]
      rw [List.take_append_eq_append_take]
      simp [List.length_take, Nat.min_eq_left (Nat.le_of_lt hlt)]
    have hdrop : (buf.set first (g s).1).drop (first + 1 + c) = buf.drop (first + (c + 1)) := by
      rw [List.drop_set_of_lt _ _ (by omega)]
      congr 1
      omega
    rw [htake, hdrop]
    simp [draw_list]

theorem generate_range_eq {T σ : Type} (R : StringRep T) (g : σ → Nat × σ) (str : T)
    (a b : Nat) (s : σ) (hab : a ≤ b) (hb : b ≤ (R.data str).length) :
    generate_range R g str (a : Int) (b : Int) s =
      some (R.store str ((R.data str).take a ++ (draw_list g (b - a) s).1 ++ (R.data str).drop b),
        (draw_list g (b - a) s).2) := by
  unfold generate_range
  have hcond : 0 ≤ (a : Int) ∧ (a : Int) ≤ (b : Int) ∧ (b : Int) ≤ ((R.data str).length : Int) := by
    omega
  have hcount : ((b : Int) - (a : Int)).toNat = b - a := by omega
  rw [if_pos hcond, hcount, Int.toNat_ofNat, std_generate_eq g (b - a) a _ s (by omega)]
  have hsum : a + (b - a) = b := by omega
  rw [hsum]

theorem generate_range_none {T σ : Type} (R : StringRep T) (g : σ → Nat × σ) (str : T)
    (first last : Int) (s : σ) (h : last < first) :
    generate_range R g str first last s = none := by
  unfold generate_range
  rw [if_neg]
  omega

theorem take_append_exact {α : Type} (l₁ l₂ : List α) (n : Nat) (h : l₁.length = n) :
    (l₁ ++ l₂).take n = l₁ := by
  subst h
  simp

/-- A call of `std::generate` on a valid window succeeds, keeps `size()` and
replaces exactly the window by the draws. -/
theorem generate_range_spec {T σ : Type} (R : StringRep T) (hR : R.Lawful) (g : σ → Nat × σ)
    (str : T) (a b : Nat) (s : σ) (hab : a ≤ b) (hb : b ≤ (R.data str).length) :
    ∃ e, generate_range R g str (a : Int) (b : Int) s = some (e, (draw_list g (b - a) s).2) ∧
      R.size e = R.size str ∧
      R.data e = (R.data str).take a ++ (draw_list g (b - a) s).1 ++ (R.data str).drop b := by
  have hlen : ((R.data str).take a ++ (draw_list g (b - a) s).1 ++ (R.data str).drop b).length =
      (R.data str).length := by
    simp only [List.length_append, List.length_take, List.length_drop, draw_list_length]
    omega
  exact ⟨_, generate_range_eq R g str a b s hab hb, hR.size_store _ _ hlen,
    hR.data_store _ _ hlen⟩

/-- Random distribution: the element receives `size()` fresh draws from `rbe`. -/
theorem fill_element_random {T σ : Type} (R : StringRep T) (hR : R.Lawful)
    (E : RandomSource σ) (m : Nat) (str : T) (rbe : σ) (hsize : R.size str = m)
    (hlen : m ≤ (R.data str).length) :
    ∃ e, fill_element R E false str rbe = some (e, (draw_list E.dist m rbe).2) ∧
      R.size e = m ∧ payload R e = (draw_list E.dist m rbe).1 := by
  obtain ⟨e, hcall, hs, hd⟩ := generate_range_spec R hR E.dist str 0 m rbe (Nat.zero_le m) hlen
  refine ⟨e, ?_, hs.trans hsize, ?_⟩
  · simp only [fill_element, Bool.false_eq_true, if_false, hsize]
    exact hcall
  · unfold payload
    rw [hs, hsize, hd, List.take_zero, List.nil_append, Nat.sub_zero]
    exact take_append_exact _ _ m (draw_list_length _ _ _)

/-- AlmostEqual distribution with at least four bytes: the element receives the
first `size() - 4` draws of a freshly seeded engine, then four draws from `rbe`. -/
theorem fill_element_almost_equal {T σ : Type} (R : StringRep T) (hR : R.Lawful)
    (E : RandomSource σ) (m : Nat) (str : T) (rbe : σ) (hsize : R.size str = m)
    (hlen : m ≤ (R.data str).length) (hm : 4 ≤ m) :
    ∃ e, fill_element R E true str rbe = some (e, (draw_list E.dist 4 rbe).2) ∧
      R.size e = m ∧
      payload R e = (draw_list E.dist (m - 4) E.seed).1 ++ (draw_list E.dist 4 rbe).1 := by
  have hcast : ((m : Int) - 4) = ((m - 4 : Nat) : Int) := by omega
  obtain ⟨e1, hcall1, hs1, hd1⟩ :=
    generate_range_spec R hR E.dist str 0 (m - 4) E.seed (Nat.zero_le _) (by omega)
  have hl1 : (draw_list E.dist (m - 4) E.seed).1.length = m - 4 := draw_list_length _ _ _
  have hl2 : (draw_list E.dist 4 rbe).1.length = 4 := draw_list_length _ _ _
  rw [List.take_zero, List.nil_append, Nat.sub_zero] at hd1
  rw [Nat.sub_zero] at hcall1
  have hlen1 : m ≤ (R.data e1).length := by
    rw [hd1, List.length_append, List.length_drop, hl1]
    omega
  obtain ⟨e2, hcall2, hs2, hd2⟩ :=
    generate_range_spec R hR E.dist e1 (m - 4) m rbe (by omega) hlen1
  have hfour : m - (m - 4) = 4 := by omega
  rw [hfour] at hcall2 hd2
  refine ⟨e2, ?_, (hs2.trans hs1).trans hsize, ?_⟩
  · simp only [fill_element, if_true, hsize, hcast]
    have hzero : ((0 : Nat) : Int) = 0 := rfl
    rw [hzero] at hcall1
    rw [hcall1]
    simp only [hs1, hsize, hcast]
    exact hcall2
  · unfold payload
    rw [hs2, hs1, hsize, hd2, hd1, take_append_exact _ _ (m - 4) hl1]
    exact take_append_exact _ _ m (by rw [List.length_append, hl1, hl2]; omega)

/-- When every pass of the loop body yields an element with the property `Q`,
the loop returns a vector with `count` more elements, all with `Q`. -/
theorem generate_loop_spec {T σ : Type} (R : StringRep T) (E : RandomSource σ)
    (almost_equal : Bool) (m : Nat) (Q : T → Prop) (str0 : T)
    (hres : R.resize R.construct m = some str0)
    (hstep : ∀ rbe, ∃ e rbe', fill_element R E almost_equal str0 rbe = some (e, rbe') ∧ Q e)
    (count : Nat) (rbe : σ) (result : List T) (hresult : ∀ e ∈ result, Q e) :
    ∃ L, generate_loop R E almost_equal m count rbe result = some L ∧
      L.length = result.length + count ∧ ∀ e ∈ L, Q e := by
  induction count generalizing rbe result with
  | zero => exact ⟨result, rfl, rfl, hresult⟩
  | succ c ih =>
    obtain ⟨e, rbe', hfill, hQ⟩ := hstep rbe
    have hall : ∀ x ∈ result ++ [e], Q x := by
      intro x hx
      rcases List.mem_append.1 hx with hx | hx
      · exact hresult x hx
      · rw [List.mem_singleton.1 hx]
        exact hQ
    obtain ⟨L, hL, hlen, hLQ⟩ := ih rbe' (result ++ [e]) hall
    refine ⟨L, ?_, ?_, hLQ⟩
    · simp only [generate_loop, hres, hfill]
      exact hL
    · rw [hlen, List.length_append, List.length_singleton]
      omega

/-- With an accepted `resize(m)` and, under AlmostEqual, at least four bytes, the
generator returns `n` elements of size `m` whose bytes are all draws of `dist`. -/
theorem generate_random_strings_spec {T σ : Type} (R : StringRep T) (hR : R.Lawful)
    (E : RandomSource σ) (P : Nat → Prop) (hP : ∀ s, P (E.dist s).1) (almost_equal : Bool)
    (n m : Nat) (hm : almost_equal = true → 4 ≤ m)
    (hres : (R.resize R.construct m).isSome = true) :
    ∃ L, generate_random_strings R E almost_equal n m = some L ∧ L.length = n ∧
      ∀ e ∈ L, R.size e = m ∧ ∀ b ∈ payload R e, P b := by
  rw [Option.isSome_iff_exists] at hres
  obtain ⟨str0, hstr0⟩ := hres
  obtain ⟨hsize, hlen⟩ := hR.size_resize m str0 hstr0
  have hstep : ∀ rbe, ∃ e rbe', fill_element R E almost_equal str0 rbe = some (e, rbe') ∧
      (R.size e = m ∧ ∀ b ∈ payload R e, P b) := by
    intro rbe
    cases almost_equal with
    | false =>
      obtain ⟨e, hfill, hs, hp⟩ := fill_element_random R hR E m str0 rbe hsize hlen
      refine ⟨e, _, hfill, hs, ?_⟩
      rw [hp]
      exact draw_list_forall E.dist P hP m rbe
    | true =>
      obtain ⟨e, hfill, hs, hp⟩ :=
        fill_element_almost_equal R hR E m str0 rbe hsize hlen (hm rfl)
      refine ⟨e, _, hfill, hs, ?_⟩
      rw [hp]
      intro b hb
      rcases List.mem_append.1 hb with hb | hb
      · exact draw_list_forall E.dist P hP _ _ b hb
      · exact draw_list_forall E.dist P hP _ _ b hb
  obtain ⟨L, hL, hlenL, hQ⟩ := generate_loop_spec R E almost_equal m _ str0 hstr0 hstep n
    E.seed [] (by simp)
  exact ⟨L, hL, by simpa using hlenL, hQ⟩

/-- Under AlmostEqual a `std::string` shorter than four bytes makes the first
`std::generate` range end before it starts, so no vector is returned. -/
theorem generate_random_strings_short_std_string {σ : Type} (E : RandomSource σ) (n m : Nat)
    (hm : m < 4) : generate_random_strings std_string_rep E true (n + 1) m = none := by
  have hsize : std_string_rep.size (std_string.resize [] m) = m := by
    simp [std_string_rep, std_string.resize]
  have hnone : fill_element std_string_rep E true (std_string.resize [] m) E.seed = none := by
    simp only [fill_element, if_true]
    rw [generate_range_none]
    rw [hsize]
    omega
  have hres : std_string_rep.resize std_string_rep.construct m =
      some (std_string.resize [] m) := rfl
  simp only [generate_random_strings, generate_loop, hres, hnone]

/-! ## The algorithms decide multiset equality -/

theorem count_le_of_count_eq {α : Type} [DecidableEq α] (A B : List α)
    (h : ∀ x, A.count x = B.count x) : ∀ x, A.count x ≤ B.count x :=
  fun x => le_of_eq (h x)

theorem exact_on_swap {α : Type} (K : ElementOps α) (A B : List α)
    (h : K.exact_on (A ++ B)) : K.exact_on (B ++ A) := by
  intro x hx y hy
  apply h
  · rcases List.mem_append.1 hx with hx | hx
    · exact List.mem_append_right _ hx
    · exact List.mem_append_left _ hx
  · rcases List.mem_append.1 hy with hy | hy
    · exact List.mem_append_right _ hy
    · exact List.mem_append_left _ hy

theorem unordered_multiset_iff_same_counts {α : Type} [DecidableEq α] (K : ElementOps α)
    (P : RehashPolicy) (size_known : Bool) (A B : List α) (hex : K.exact_on (A ++ B))
    (hlen : A.length = B.length) :
    compare_multiset_unordered_multiset K P size_known A B = true ↔
      ∀ x, A.count x = B.count x := by
  rw [unordered_multiset_true_iff K P size_known A B hex]
  exact ⟨count_eq_of_count_le A B hlen, count_le_of_count_eq A B⟩

theorem hashtable_iff_same_counts {α : Type} [DecidableEq α] (K : ElementOps α)
    (P : ProbePolicy) (size_known : Bool) (A B : List α) (hex : K.exact_on (A ++ B))
    (hlen : A.length = B.length) (hfit : A.length < SIZE_MOD) :
    compare_multiset_hashtable_1 K P size_known A B = true ↔ ∀ x, A.count x = B.count x := by
  rw [hashtable_true_iff K P size_known A B hex hfit]
  constructor
  · intro h x
    exact (count_eq_of_count_le B A hlen.symm h x).symm
  · intro h x
    exact le_of_eq (h x).symm

theorem sort_iff_same_counts {α : Type} [LinearOrder α] [DecidableEq α] (hash : α → Nat)
    (size_known : Bool) (A B : List α) :
    compare_multiset_sort (ordered_ops hash) size_known A B = true ↔
      ∀ x, A.count x = B.count x := by
  rw [sort_true_iff_perm, List.perm_iff_count]

/-- C1: for sequences over an element type with a strict total order that agrees
with equality, `compare_multiset_sort` (copy both, sort both, compare
element-wise) returns true if and only if every element occurs exactly as often
in `A` as in `B`; this holds for sequences of any lengths, equal lengths
included, and the algorithm never calls the hash. -/
theorem compare_multiset_sort_decides_multiset_equality {α : Type} [LinearOrder α]
    [DecidableEq α] (hash : α → Nat) (size_known : Bool) (A B : List α) :
    compare_multiset_sort (ordered_ops hash) size_known A B = true ↔
      ∀ x, A.count x = B.count x :=
  sort_iff_same_counts hash size_known A B

/-- C2 as stated fails on `C_String`: the two one-element sequences hold
initialised elements that `operator==` accepts as equal (the sort-based
algorithm returns true) and whose bytes differ after the zero byte at index 1;
on this one input the hash multiset returns true with `size_known` and false
without, so its result is not a function of the two multisets under either
reading of equality. Evaluated with the sample hash and bucket rule. -/
theorem unordered_multiset_fails_on_inexact_equality :
    [zero_at_one 98].length = [zero_at_one 102].length ∧
      (zero_at_one 98).initialised ∧ (zero_at_one 102).initialised ∧
      (zero_at_one 98).operator_eq (zero_at_one 102) = some true ∧
      (zero_at_one 98).hash_input ≠ (zero_at_one 102).hash_input ∧
      compare_multiset_sort (C_String_ops byte_sum) false
        [zero_at_one 98] [zero_at_one 102] = true ∧
      compare_multiset_unordered_multiset (C_String_ops byte_sum) sample_rehash_policy true
        [zero_at_one 98] [zero_at_one 102] = true ∧
      compare_multiset_unordered_multiset (C_String_ops byte_sum) sample_rehash_policy false
        [zero_at_one 98] [zero_at_one 102] = false := by
  decide

/-- C2, amended: for two sequences of equal length on whose elements
`operator==` holds exactly between identical values (so that equal elements
hash alike), `compare_multiset_unordered_multiset` returns true if and only if
every element occurs exactly as often in `A` as in `B`, duplicates included;
for every hash function, bucket rule and `size_known`. -/
theorem compare_multiset_unordered_multiset_decides_multiset_equality {α : Type}
    [DecidableEq α] (K : ElementOps α) (P : RehashPolicy) (size_known : Bool)
    (A B : List α) (hex : K.exact_on (A ++ B)) (hlen : A.length = B.length) :
    compare_multiset_unordered_multiset K P size_known A B = true ↔
      ∀ x, A.count x = B.count x :=
  unordered_multiset_iff_same_counts K P size_known A B hex hlen

theorem compare_multiset_unordered_multiset_decides_multiset_equality_witness :
    (C_String_ops byte_sum).exact_on
        ([letters 97, letters 98, letters 98] ++ [letters 98, letters 98, letters 97]) ∧
      [letters 97, letters 98, letters 98].length =
        [letters 98, letters 98, letters 97].length ∧
      (compare_multiset_unordered_multiset (C_String_ops byte_sum) sample_rehash_policy true
          [letters 97, letters 98, letters 98] [letters 98, letters 98, letters 97] = true ↔
        ∀ x, [letters 97, letters 98, letters 98].count x =
          [letters 98, letters 98, letters 97].count x) :=
  ⟨by unfold ElementOps.exact_on; decide, rfl,
    compare_multiset_unordered_multiset_decides_multiset_equality (C_String_ops byte_sum)
      sample_rehash_policy true [letters 97, letters 98, letters 98]
      [letters 98, letters 98, letters 97] (by unfold ElementOps.exact_on; decide) rfl⟩

/-- C3 as stated fails on `C_String`: the two one-element sequences hold
initialised elements that `operator==` accepts as equal, so they are equal as
multisets and the sort-based algorithm returns true, but the probe for the
second element does not meet the first, whose hash differs, and the counting
map returns false. Evaluated with the sample hash and probe rule. -/
theorem counting_map_fails_on_inexact_equality :
    [zero_at_one 98].length = [zero_at_one 99].length ∧
      (zero_at_one 98).initialised ∧ (zero_at_one 99).initialised ∧
      (zero_at_one 98).operator_eq (zero_at_one 99) = some true ∧
      compare_multiset_sort (C_String_ops byte_sum) true
        [zero_at_one 98] [zero_at_one 99] = true ∧
      compare_multiset_hashtable_1 (C_String_ops byte_sum) sample_probe_policy true
        [zero_at_one 98] [zero_at_one 99] = false ∧
      compare_multiset_hashtable_1 (C_String_ops byte_sum) sample_probe_policy false
        [zero_at_one 98] [zero_at_one 99] = false := by
  decide

/-- C3, amended: for two sequences of equal length that fits `size_t`, on whose
elements `operator==` holds exactly between identical values,
`compare_multiset_hashtable_1` returns true exactly when every element of `B`
is reached with a positive remaining count (its occurrences in `A` minus its
occurrences among the earlier elements of `B`, a never-counted key counting as
0), so it returns false as soon as one is reached with remaining count zero;
and it returns true if and only if every element occurs exactly as often in `A`
as in `B`; for every hash function, probe rule and `size_known`. -/
theorem compare_multiset_hashtable_1_decides_multiset_equality {α : Type} [DecidableEq α]
    (K : ElementOps α) (P : ProbePolicy) (size_known : Bool) (A B : List α)
    (hex : K.exact_on (A ++ B)) (hlen : A.length = B.length) (hfit : A.length < SIZE_MOD) :
    (compare_multiset_hashtable_1 K P size_known A B = true ↔
        ∀ i (hi : i < B.length), (B.take i).count B[i] < A.count B[i]) ∧
      (compare_multiset_hashtable_1 K P size_known A B = true ↔
        ∀ x, A.count x = B.count x) :=
  ⟨(hashtable_true_iff K P size_known A B hex hfit).trans
      (earlier_count_iff B (fun x => A.count x)).symm,
    hashtable_iff_same_counts K P size_known A B hex hlen hfit⟩

theorem compare_multiset_hashtable_1_decides_multiset_equality_witness :
    (C_String_ops byte_sum).exact_on
        ([letters 97, letters 98, letters 98] ++ [letters 98, letters 98, letters 97]) ∧
      [letters 97, letters 98, letters 98].length =
        [letters 98, letters 98, letters 97].length ∧
      [letters 97, letters 98, letters 98].length < SIZE_MOD ∧
      ((compare_multiset_hashtable_1 (C_String_ops byte_sum) sample_probe_policy false
            [letters 97, letters 98, letters 98] [letters 98, letters 98, letters 97] = true ↔
          ∀ i (hi : i < [letters 98, letters 98, letters 97].length),
            ([letters 98, letters 98, letters 97].take i).count
                [letters 98, letters 98, letters 97][i] <
              [letters 97, letters 98, letters 98].count
                [letters 98, letters 98, letters 97][i]) ∧
        (compare_multiset_hashtable_1 (C_String_ops byte_sum) sample_probe_policy false
            [letters 97, letters 98, letters 98] [letters 98, letters 98, letters 97] = true ↔
          ∀ x, [letters 97, letters 98, letters 98].count x =
            [letters 98, letters 98, letters 97].count x)) :=
  ⟨by unfold ElementOps.exact_on; decide, rfl, size_t_fits_small _ (by decide),
    compare_multiset_hashtable_1_decides_multiset_equality (C_String_ops byte_sum)
      sample_probe_policy false [letters 97, letters 98, letters 98]
      [letters 98, letters 98, letters 97] (by unfold ElementOps.exact_on; decide) rfl
      (size_t_fits_small _ (by decide))⟩

/-- C9, evaluated where it fails: for `std::string` (whose `resize` accepts
every length), the AlmostEqual distribution, `n = 1` and `m = 3` the first
`std::generate` is given the range `[data(), data() + 3 - 4)`, whose end lies
before its start, and no vector of `n` elements is returned, whatever the
random engine. -/
theorem generate_random_strings_almost_equal_three_bytes_fails {σ : Type}
    (E : RandomSource σ) :
    (std_string_rep.resize std_string_rep.construct 3).isSome = true ∧
      generate_random_strings std_string_rep E true 1 3 = none :=
  ⟨rfl, generate_random_strings_short_std_string E 0 3 (by decide)⟩

theorem lowercase_of_spec {T σ : Type} (R : StringRep T) (hR : R.Lawful)
    (E : RandomSource σ) (hE : E.in_range) (almost_equal : Bool) (n m : Nat)
    (hm : almost_equal = true → 4 ≤ m) (hres : (R.resize R.construct m).isSome = true) :
    ∃ L, generate_random_strings R E almost_equal n m = some L ∧ all_lowercase R L ∧
      ∀ e ∈ L, 0 ∉ payload R e := by
  obtain ⟨L, hL, _, hall⟩ := generate_random_strings_spec R hR E
    (fun b => 97 ≤ b ∧ b ≤ 122) hE almost_equal n m hm hres
  refine ⟨L, hL, fun e he => (hall e he).2, ?_⟩
  intro e he h0
  have := (hall e he).2 0 h0
  omega

/-- C10: when `dist` keeps its contract (every draw in `'a'..'z'`), every byte of
every element that `generate_random_strings` returns is a lowercase ASCII
letter (97..122), hence never zero: for the Random distribution with every `m`
that the element type's `resize` accepts, and for AlmostEqual when moreover
`m >= 4`; this holds for `std::string`, `boomer_string<M>` and `C_String`. -/
theorem generate_random_strings_bytes_lowercase {σ : Type} (E : RandomSource σ)
    (hE : E.in_range) (almost_equal : Bool) (n m M : Nat)
    (hm : almost_equal = true → 4 ≤ m) :
    (∃ L, generate_random_strings std_string_rep E almost_equal n m = some L ∧
        all_lowercase std_string_rep L ∧ ∀ e ∈ L, 0 ∉ payload std_string_rep e) ∧
      (((boomer_string_rep M).resize (boomer_string_rep M).construct m).isSome = true →
        ∃ L, generate_random_strings (boomer_string_rep M) E almost_equal n m = some L ∧
          all_lowercase (boomer_string_rep M) L ∧
          ∀ e ∈ L, 0 ∉ payload (boomer_string_rep M) e) ∧
      ((C_String_rep.resize C_String_rep.construct m).isSome = true →
        ∃ L, generate_random_strings C_String_rep E almost_equal n m = some L ∧
          all_lowercase C_String_rep L ∧ ∀ e ∈ L, 0 ∉ payload C_String_rep e) :=
  ⟨lowercase_of_spec std_string_rep std_string_rep_lawful E hE almost_equal n m hm rfl,
    lowercase_of_spec (boomer_string_rep M) (boomer_string_rep_lawful M) E hE almost_equal n m hm,
    lowercase_of_spec C_String_rep C_String_rep_lawful E hE almost_equal n m hm⟩

theorem minstd_source_in_range : minstd_source.in_range := by
  intro s
  simp only [minstd_source]
  omega

theorem generate_random_strings_bytes_lowercase_witness :
    minstd_source.in_range ∧ (true = true → 4 ≤ 100) ∧
      ((∃ L, generate_random_strings std_string_rep minstd_source true 2 100 = some L ∧
          all_lowercase std_string_rep L ∧ ∀ e ∈ L, 0 ∉ payload std_string_rep e) ∧
        (((boomer_string_rep 100).resize (boomer_string_rep 100).construct 100).isSome = true →
          ∃ L, generate_random_strings (boomer_string_rep 100) minstd_source true 2 100 =
              some L ∧
            all_lowercase (boomer_string_rep 100) L ∧
            ∀ e ∈ L, 0 ∉ payload (boomer_string_rep 100) e) ∧
        ((C_String_rep.resize C_String_rep.construct 100).isSome = true →
          ∃ L, generate_random_strings C_String_rep minstd_source true 2 100 = some L ∧
            all_lowercase C_String_rep L ∧ ∀ e ∈ L, 0 ∉ payload C_String_rep e)) :=
  ⟨minstd_source_in_range, fun _ => by decide,
    generate_random_strings_bytes_lowercase minstd_source minstd_source_in_range true 2 100 100
      (fun _ => by decide)⟩

/-! ## The generator: shared front, success and determinism -/

/-- Under AlmostEqual with at least four bytes every returned element has size
`m`, `m` payload bytes, and the first `m - 4` draws of a freshly seeded engine
as its first `m - 4` bytes. -/
theorem generate_random_strings_front {T σ : Type} (R : StringRep T) (hR : R.Lawful)
    (E : RandomSource σ) (n m : Nat) (hm : 4 ≤ m)
    (hres : (R.resize R.construct m).isSome = true) :
    ∃ L, generate_random_strings R E true n m = some L ∧ L.length = n ∧
      ∀ e ∈ L, (payload R e).length = m ∧
        (payload R e).take (m - 4) = (draw_list E.dist (m - 4) E.seed).1 := by
  rw [Option.isSome_iff_exists] at hres
  obtain ⟨str0, hstr0⟩ := hres
  obtain ⟨hsize, hlen⟩ := hR.size_resize m str0 hstr0
  have hstep : ∀ rbe, ∃ e rbe', fill_element R E true str0 rbe = some (e, rbe') ∧
      ((payload R e).length = m ∧
        (payload R e).take (m - 4) = (draw_list E.dist (m - 4) E.seed).1) := by
    intro rbe
    obtain ⟨e, hfill, _, hp⟩ := fill_element_almost_equal R hR E m str0 rbe hsize hlen hm
    have hl1 : (draw_list E.dist (m - 4) E.seed).1.length = m - 4 := draw_list_length _ _ _
    have hl2 : (draw_list E.dist 4 rbe).1.length = 4 := draw_list_length _ _ _
    refine ⟨e, _, hfill, ?_, ?_⟩
    · rw [hp, List.length_append, hl1, hl2]
      omega
    · rw [hp]
      exact take_append_exact _ _ (m - 4) hl1
  obtain ⟨L, hL, hlenL, hQ⟩ := generate_loop_spec R E true m _ str0 hstr0 hstep n
    E.seed [] (by simp)
  exact ⟨L, hL, by simpa using hlenL, hQ⟩

theorem common_front_of_two_calls {T σ : Type} (R : StringRep T) (hR : R.Lawful)
    (E : RandomSource σ) (n₁ n₂ m : Nat) (hm : 4 ≤ m)
    (hres : (R.resize R.construct m).isSome = true) :
    ∃ L₁ L₂, generate_random_strings R E true n₁ m = some L₁ ∧
      generate_random_strings R E true n₂ m = some L₂ ∧
      (∀ e ∈ L₁ ++ L₂, (payload R e).length = m) ∧ common_front R m (L₁ ++ L₂) := by
  obtain ⟨L₁, h₁, _, hQ₁⟩ := generate_random_strings_front R hR E n₁ m hm hres
  obtain ⟨L₂, h₂, _, hQ₂⟩ := generate_random_strings_front R hR E n₂ m hm hres
  have hall : ∀ e ∈ L₁ ++ L₂, (payload R e).length = m ∧
      (payload R e).take (m - 4) = (draw_list E.dist (m - 4) E.seed).1 := by
    intro e he
    rcases List.mem_append.1 he with he | he
    · exact hQ₁ e he
    · exact hQ₂ e he
  refine ⟨L₁, L₂, h₁, h₂, fun e he => (hall e he).1, ?_⟩
  intro e he e' he'
  rw [(hall e he).2, (hall e' he').2]

/-- C11: under AlmostEqual with `m >= 4`, for any two calls
`generate_random_strings<T, true>(n1, m)` and `(n2, m)` both calls return, every
returned element has `m` bytes, and any two elements taken from either result
agree on the bytes at positions `[0, m - 4)`, so only the last four bytes may
differ; for `std::string`, `boomer_string<M>` and `C_String`. -/
theorem almost_equal_elements_share_front {σ : Type} (E : RandomSource σ)
    (n₁ n₂ m M : Nat) (hm : 4 ≤ m) :
    (∃ L₁ L₂, generate_random_strings std_string_rep E true n₁ m = some L₁ ∧
        generate_random_strings std_string_rep E true n₂ m = some L₂ ∧
        (∀ e ∈ L₁ ++ L₂, (payload std_string_rep e).length = m) ∧
        common_front std_string_rep m (L₁ ++ L₂)) ∧
      (((boomer_string_rep M).resize (boomer_string_rep M).construct m).isSome = true →
        ∃ L₁ L₂, generate_random_strings (boomer_string_rep M) E true n₁ m = some L₁ ∧
          generate_random_strings (boomer_string_rep M) E true n₂ m = some L₂ ∧
          (∀ e ∈ L₁ ++ L₂, (payload (boomer_string_rep M) e).length = m) ∧
          common_front (boomer_string_rep M) m (L₁ ++ L₂)) ∧
      ((C_String_rep.resize C_String_rep.construct m).isSome = true →
        ∃ L₁ L₂, generate_random_strings C_String_rep E true n₁ m = some L₁ ∧
          generate_random_strings C_String_rep E true n₂ m = some L₂ ∧
          (∀ e ∈ L₁ ++ L₂, (payload C_String_rep e).length = m) ∧
          common_front C_String_rep m (L₁ ++ L₂)) :=
  ⟨common_front_of_two_calls std_string_rep std_string_rep_lawful E n₁ n₂ m hm rfl,
    common_front_of_two_calls (boomer_string_rep M) (boomer_string_rep_lawful M) E n₁ n₂ m hm,
    common_front_of_two_calls C_String_rep C_String_rep_lawful E n₁ n₂ m hm⟩

theorem almost_equal_elements_share_front_witness :
    4 ≤ 100 ∧
      ((∃ L₁ L₂, generate_random_strings std_string_rep minstd_source true 2 100 = some L₁ ∧
          generate_random_strings std_string_rep minstd_source true 3 100 = some L₂ ∧
          (∀ e ∈ L₁ ++ L₂, (payload std_string_rep e).length = 100) ∧
          common_front std_string_rep 100 (L₁ ++ L₂)) ∧
        (((boomer_string_rep 100).resize (boomer_string_rep 100).construct 100).isSome = true →
          ∃ L₁ L₂, generate_random_strings (boomer_string_rep 100) minstd_source true 2 100 =
              some L₁ ∧
            generate_random_strings (boomer_string_rep 100) minstd_source true 3 100 =
              some L₂ ∧
            (∀ e ∈ L₁ ++ L₂, (payload (boomer_string_rep 100) e).length = 100) ∧
            common_front (boomer_string_rep 100) 100 (L₁ ++ L₂)) ∧
        ((C_String_rep.resize C_String_rep.construct 100).isSome = true →
          ∃ L₁ L₂, generate_random_strings C_String_rep minstd_source true 2 100 = some L₁ ∧
            generate_random_strings C_String_rep minstd_source true 3 100 = some L₂ ∧
            (∀ e ∈ L₁ ++ L₂, (payload C_String_rep e).length = 100) ∧
            common_front C_String_rep 100 (L₁ ++ L₂))) :=
  ⟨by decide, almost_equal_elements_share_front minstd_source 2 3 100 100 (by decide)⟩

theorem fill_ranges_valid_of_resize {T : Type} (R : StringRep T) (hR : R.Lawful)
    (almost_equal : Bool) (m : Nat) (hm : almost_equal = true → 4 ≤ m) (str : T)
    (hstr : R.resize R.construct m = some str) : fill_ranges_valid R almost_equal str := by
  obtain ⟨hsize, hlen⟩ := hR.size_resize m str hstr
  unfold fill_ranges_valid
  cases almost_equal with
  | false =>
    simp only [Bool.false_eq_true, if_false]
    omega
  | true =>
    have := hm rfl
    simp only [if_true]
    omega

theorem generate_succeeds_of_accepted {T σ : Type} (R : StringRep T) (hR : R.Lawful)
    (E : RandomSource σ) (almost_equal : Bool) (n m : Nat)
    (hm : almost_equal = true → 4 ≤ m) (hres : (R.resize R.construct m).isSome = true) :
    (∀ str, R.resize R.construct m = some str → fill_ranges_valid R almost_equal str) ∧
      ∃ L, generate_random_strings R E almost_equal n m = some L ∧ L.length = n := by
  refine ⟨fill_ranges_valid_of_resize R hR almost_equal m hm, ?_⟩
  obtain ⟨L, hL, hlen, _⟩ := generate_random_strings_spec R hR E (fun _ => True)
    (fun _ => trivial) almost_equal n m hm hres
  exact ⟨L, hL, hlen⟩

/-- C12 as stated fails at explicit inputs with `n > 0` and `m > 0`: the
fixed-size element types reject `m = 99` in `resize` (an assertion), and for
`std::string` under AlmostEqual with `m = 1, 2, 3` the range `[0, m - 4)` is
not a valid range, so no call returns a vector. The outcome does not depend on
the sample engine. -/
theorem generate_random_strings_fails_on_some_sizes :
    generate_random_strings C_String_rep minstd_source false 1 99 = none ∧
      generate_random_strings (boomer_string_rep 100) minstd_source false 1 99 = none ∧
      ¬ fill_ranges_valid std_string_rep true (std_string.resize [] 3) ∧
      generate_random_strings std_string_rep minstd_source true 1 1 = none ∧
      generate_random_strings std_string_rep minstd_source true 1 2 = none ∧
      generate_random_strings std_string_rep minstd_source true 1 3 = none := by
  refine ⟨by decide, by decide, ?_, by decide, by decide, by decide⟩
  simp [fill_ranges_valid, std_string_rep, std_string.resize]

/-- C12, amended: for every `n`, every `m` that the element type's `resize`
accepts, and both distributions, with `m >= 4` under AlmostEqual, the ranges
handed to `std::generate` (`[0, m - 4)` and `[m - 4, m)`, or `[0, m)`) lie
inside the element's buffer and the call returns a vector of `n` elements; for
`std::string`, `boomer_string<M>` and `C_String`. -/
theorem generate_random_strings_succeeds_on_accepted_sizes {σ : Type} (E : RandomSource σ)
    (almost_equal : Bool) (n m M : Nat) (hm : almost_equal = true → 4 ≤ m) :
    ((∀ str, std_string_rep.resize std_string_rep.construct m = some str →
          fill_ranges_valid std_string_rep almost_equal str) ∧
        ∃ L, generate_random_strings std_string_rep E almost_equal n m = some L ∧
          L.length = n) ∧
      (((boomer_string_rep M).resize (boomer_string_rep M).construct m).isSome = true →
        (∀ str, (boomer_string_rep M).resize (boomer_string_rep M).construct m = some str →
          fill_ranges_valid (boomer_string_rep M) almost_equal str) ∧
        ∃ L, generate_random_strings (boomer_string_rep M) E almost_equal n m = some L ∧
          L.length = n) ∧
      ((C_String_rep.resize C_String_rep.construct m).isSome = true →
        (∀ str, C_String_rep.resize C_String_rep.construct m = some str →
          fill_ranges_valid C_String_rep almost_equal str) ∧
        ∃ L, generate_random_strings C_String_rep E almost_equal n m = some L ∧
          L.length = n) :=
  ⟨generate_succeeds_of_accepted std_string_rep std_string_rep_lawful E almost_equal n m hm rfl,
    generate_succeeds_of_accepted (boomer_string_rep M) (boomer_string_rep_lawful M) E
      almost_equal n m hm,
    generate_succeeds_of_accepted C_String_rep C_String_rep_lawful E almost_equal n m hm⟩

theorem generate_random_strings_succeeds_on_accepted_sizes_witness :
    (true = true → 4 ≤ 100) ∧
      (((∀ str, std_string_rep.resize std_string_rep.construct 100 = some str →
            fill_ranges_valid std_string_rep true str) ∧
          ∃ L, generate_random_strings std_string_rep minstd_source true 3 100 = some L ∧
            L.length = 3) ∧
        (((boomer_string_rep 100).resize (boomer_string_rep 100).construct 100).isSome = true →
          (∀ str, (boomer_string_rep 100).resize (boomer_string_rep 100).construct 100 =
              some str → fill_ranges_valid (boomer_string_rep 100) true str) ∧
          ∃ L, generate_random_strings (boomer_string_rep 100) minstd_source true 3 100 =
              some L ∧ L.length = 3) ∧
        ((C_String_rep.resize C_String_rep.construct 100).isSome = true →
          (∀ str, C_String_rep.resize C_String_rep.construct 100 = some str →
            fill_ranges_valid C_String_rep true str) ∧
          ∃ L, generate_random_strings C_String_rep minstd_source true 3 100 = some L ∧
            L.length = 3)) :=
  ⟨fun _ => by decide,
    generate_random_strings_succeeds_on_accepted_sizes minstd_source true 3 100 100
      (fun _ => by decide)⟩

theorem generate_pair_of_some {T σ : Type} (R : StringRep T) (E : RandomSource σ)
    (almost_equal : Bool) (n m : Nat) (A : List T)
    (h : generate_random_strings R E almost_equal n m = some A) :
    generate_pair R E almost_equal n m = some (A, A) := by
  simp only [generate_pair, h]

/-- Each algorithm returns true on a sequence paired with itself. -/
theorem algorithms_true_on_self {α : Type} [LinearOrder α] [DecidableEq α] (hash : α → Nat)
    (P : RehashPolicy) (Q : ProbePolicy) (sk₁ sk₂ sk₃ : Bool) (A : List α)
    (hfit : A.length < SIZE_MOD) :
    compare_multiset_sort (ordered_ops hash) sk₁ A A = true ∧
      compare_multiset_unordered_multiset (ordered_ops hash) P sk₂ A A = true ∧
      compare_multiset_hashtable_1 (ordered_ops hash) Q sk₃ A A = true :=
  ⟨(sort_true_iff_perm hash sk₁ A A).2 (List.Perm.refl A),
    (unordered_multiset_iff_same_counts _ P sk₂ A A (ordered_ops_exact_on hash _) rfl).2
      (fun _ => rfl),
    (hashtable_iff_same_counts _ Q sk₃ A A (ordered_ops_exact_on hash _) rfl hfit).2
      (fun _ => rfl)⟩

/-- Two successive calls with the same arguments return the same vector, on
which every algorithm returns true. -/
theorem generate_pair_identical {T σ : Type} [LinearOrder T] [DecidableEq T]
    (R : StringRep T) (hR : R.Lawful) (E : RandomSource σ) (almost_equal : Bool)
    (n m : Nat) (hm : almost_equal = true → 4 ≤ m)
    (hres : (R.resize R.construct m).isSome = true) (hfit : n < SIZE_MOD)
    (hash : T → Nat) (P : RehashPolicy) (Q : ProbePolicy) (sk₁ sk₂ sk₃ : Bool) :
    ∃ A, generate_pair R E almost_equal n m = some (A, A) ∧ A.length = n ∧
      compare_multiset_sort (ordered_ops hash) sk₁ A A = true ∧
      compare_multiset_unordered_multiset (ordered_ops hash) P sk₂ A A = true ∧
      compare_multiset_hashtable_1 (ordered_ops hash) Q sk₃ A A = true := by
  obtain ⟨A, hA, hlen, _⟩ := generate_random_strings_spec R hR E (fun _ => True)
    (fun _ => trivial) almost_equal n m hm hres
  exact ⟨A, generate_pair_of_some R E almost_equal n m A hA, hlen,
    algorithms_true_on_self hash P Q sk₁ sk₂ sk₃ A (by rw [hlen]; exact hfit)⟩

/-- C13 as stated fails: for `n = 4`, `m = 8` and the Random distribution the two
successive calls return the same sequence `A = B`, and each of the three
algorithms returns true on `(A, B)`, not false. -/
theorem successive_calls_are_not_independent :
    ∃ A B, generate_pair std_string_rep minstd_source false 4 8 = some (A, B) ∧ A = B ∧
      compare_multiset_sort (ordered_ops byte_sum) true A B = true ∧
      compare_multiset_unordered_multiset (ordered_ops byte_sum) sample_rehash_policy true
        A B = true ∧
      compare_multiset_hashtable_1 (ordered_ops byte_sum) sample_probe_policy true
        A B = true := by
  obtain ⟨A, hA, _, h⟩ := generate_pair_identical std_string_rep std_string_rep_lawful
    minstd_source false 4 8 (fun h => by cases h) rfl (size_t_fits_small 4 (by decide))
    byte_sum sample_rehash_policy sample_probe_policy true true true
  exact ⟨A, A, hA, rfl, h⟩

/-- C13, amended: the two sequences of a benchmark case come from two calls that
both start from default-seeded engines, so they are the same sequence: for
`n = 4`, `m = 8` and the Random distribution the calls return `(A, A)` with four
elements, whatever the engine, and each of the three algorithms returns true,
for every hash function and table rule. -/
theorem successive_calls_return_identical_sequences {σ : Type} (E : RandomSource σ)
    (hash : std_string → Nat) (P : RehashPolicy) (Q : ProbePolicy) (sk₁ sk₂ sk₃ : Bool) :
    ∃ A, generate_pair std_string_rep E false 4 8 = some (A, A) ∧ A.length = 4 ∧
      compare_multiset_sort (ordered_ops hash) sk₁ A A = true ∧
      compare_multiset_unordered_multiset (ordered_ops hash) P sk₂ A A = true ∧
      compare_multiset_hashtable_1 (ordered_ops hash) Q sk₃ A A = true :=
  generate_pair_identical std_string_rep std_string_rep_lawful E false 4 8
    (fun h => by cases h) rfl (size_t_fits_small 4 (by decide)) hash P Q sk₁ sk₂ sk₃

/-! ## Sequences of different lengths -/

theorem unordered_multiset_loop_front {α : Type} (K : ElementOps α) (s : unordered_multiset α)
    (x y : α) (rest : List α) (hxx : K.eq x x = true) (hs : s.elems = y :: x :: rest) :
    unordered_multiset_loop K s [x] = true := by
  have hfind : ∃ it, s.find K x = some it := by
    unfold unordered_multiset.find
    rw [hs]
    simp only [find_index, hxx, decide_True, Bool.and_self, if_true]
    by_cases hy : (decide (s.bucket K y = s.bucket K x) && K.eq x y) = true
    · exact ⟨0, by rw [if_pos hy]⟩
    · exact ⟨1, by rw [if_neg hy]; rfl⟩
  obtain ⟨it, hit⟩ := hfind
  simp only [unordered_multiset_loop, hit]

/-- A sequence of one element is found in every hash multiset built from itself
and one more element, whatever the hash function and bucket rule, as soon as
`operator==` accepts the element as equal to itself. -/
theorem unordered_multiset_true_on_front {α : Type} (K : ElementOps α) (P : RehashPolicy)
    (size_known : Bool) (x y : α) (hxx : K.eq x x = true) :
    compare_multiset_unordered_multiset K P size_known [x] [x, y] = true :=
  unordered_multiset_loop_front K _ x y _ hxx (foldl_insert_elems P [x, y] _)

/-- The hash multiset accepts an empty first sequence. -/
theorem unordered_multiset_true_on_empty {α : Type} (K : ElementOps α) (P : RehashPolicy)
    (size_known : Bool) (B : List α) :
    compare_multiset_unordered_multiset K P size_known [] B = true := by
  simp only [compare_multiset_unordered_multiset, unordered_multiset_loop]

/-- C14 as stated fails: on `A = [1]`, `B = [1, 2]`, of different lengths, every
algorithm returns a boolean. Evaluated with the identity hash and the sample
table rules. -/
theorem length_mismatch_returns_a_boolean :
    [1].length ≠ [1, 2].length ∧
      compare_multiset_sort (ordered_ops id) true [1] [1, 2] = false ∧
      compare_multiset_unordered_multiset (ordered_ops id) sample_rehash_policy true
        [1] [1, 2] = true ∧
      compare_multiset_hashtable_1 (ordered_ops id) sample_probe_policy true
        [1] [1, 2] = false := by
  decide

/-- C14, amended: no algorithm checks the lengths, and a length mismatch makes no
call fail: for `A` and `B` of different lengths (that of `A` fitting `size_t`)
`compare_multiset_sort` returns false, `compare_multiset_unordered_multiset`
returns false when `A` is the longer one and `compare_multiset_hashtable_1`
returns false when `B` is the longer one; for all operators of the element
type, every hash function, table rule and `size_known`. -/
theorem length_mismatch_results {α : Type} (K : ElementOps α) (P : RehashPolicy)
    (Q : ProbePolicy) (sk₁ sk₂ sk₃ : Bool) (A B : List α) (hne : A.length ≠ B.length)
    (hfit : A.length < SIZE_MOD) :
    compare_multiset_sort K sk₁ A B = false ∧
      (B.length < A.length → compare_multiset_unordered_multiset K P sk₂ A B = false) ∧
      (A.length < B.length → compare_multiset_hashtable_1 K Q sk₃ A B = false) :=
  ⟨sort_false_of_length_ne K sk₁ A B hne,
    unordered_multiset_false_of_longer K P sk₂ A B,
    hashtable_false_of_longer K Q sk₃ A B hfit⟩

theorem length_mismatch_results_witness :
    [zero_at_one 98, letters 97].length ≠ [zero_at_one 102].length ∧
      [zero_at_one 98, letters 97].length < SIZE_MOD ∧
      (compare_multiset_sort (C_String_ops byte_sum) true
          [zero_at_one 98, letters 97] [zero_at_one 102] = false ∧
        ([zero_at_one 102].length < [zero_at_one 98, letters 97].length →
          compare_multiset_unordered_multiset (C_String_ops byte_sum) sample_rehash_policy
            false [zero_at_one 98, letters 97] [zero_at_one 102] = false) ∧
        ([zero_at_one 98, letters 97].length < [zero_at_one 102].length →
          compare_multiset_hashtable_1 (C_String_ops byte_sum) sample_probe_policy true
            [zero_at_one 98, letters 97] [zero_at_one 102] = false)) :=
  ⟨by decide, size_t_fits_small _ (by decide),
    length_mismatch_results (C_String_ops byte_sum) sample_rehash_policy sample_probe_policy
      true false true [zero_at_one 98, letters 97] [zero_at_one 102] (by decide)
      (size_t_fits_small _ (by decide))⟩

/-- C18 as stated fails on `C_String`: `A` holds one element and `B` two, the
element of `A` is accepted by `operator==` as equal to the first of `B` while
its bytes differ from both elements of `B`, and the hash multiset returns true
with `size_known` and false without, so the result is not determined by how
often each element occurs in `A` and in `B`. Evaluated with the sample hash and
bucket rule. -/
theorem unordered_multiset_inclusion_fails_on_inexact_equality :
    (zero_at_one 98).initialised ∧ (zero_at_one 102).initialised ∧
      (letters 122).initialised ∧
      (zero_at_one 98).operator_eq (zero_at_one 102) = some true ∧
      [zero_at_one 98].count (zero_at_one 98) = 1 ∧
      [zero_at_one 102, letters 122].count (zero_at_one 98) = 0 ∧
      compare_multiset_unordered_multiset (C_String_ops byte_sum) sample_rehash_policy true
        [zero_at_one 98] [zero_at_one 102, letters 122] = true ∧
      compare_multiset_unordered_multiset (C_String_ops byte_sum) sample_rehash_policy false
        [zero_at_one 98] [zero_at_one 102, letters 122] = false := by
  decide

/-- C18, amended: without the equal-length precondition, for sequences `A` and `B`
of any lengths on whose elements `operator==` holds exactly between identical
values (so that equal elements hash alike),
`compare_multiset_unordered_multiset(A, B)` returns true if and only if every
element occurs in `A` at most as often as in `B`; and for all operators it
returns true on `([x], [x, y])` when `operator==` accepts `x` as equal to
itself, and on `([], B')` for every `B'`; for every hash function, bucket rule
and `size_known`. -/
theorem unordered_multiset_decides_inclusion {α : Type} [DecidableEq α] (K : ElementOps α)
    (P : RehashPolicy) (size_known : Bool) (A B : List α) (hex : K.exact_on (A ++ B)) :
    (compare_multiset_unordered_multiset K P size_known A B = true ↔
        ∀ x, A.count x ≤ B.count x) ∧
      (∀ x y : α, K.eq x x = true →
        compare_multiset_unordered_multiset K P size_known [x] [x, y] = true) ∧
      (∀ B' : List α, compare_multiset_unordered_multiset K P size_known [] B' = true) :=
  ⟨unordered_multiset_true_iff K P size_known A B hex,
    unordered_multiset_true_on_front K P size_known,
    unordered_multiset_true_on_empty K P size_known⟩

theorem unordered_multiset_decides_inclusion_witness :
    (C_String_ops byte_sum).exact_on ([letters 97] ++ [letters 98, letters 97, letters 97]) ∧
      ((compare_multiset_unordered_multiset (C_String_ops byte_sum) sample_rehash_policy false
            [letters 97] [letters 98, letters 97, letters 97] = true ↔
          ∀ x, [letters 97].count x ≤ [letters 98, letters 97, letters 97].count x) ∧
        (∀ x y : C_String, (C_String_ops byte_sum).eq x x = true →
          compare_multiset_unordered_multiset (C_String_ops byte_sum) sample_rehash_policy
            false [x] [x, y] = true) ∧
        (∀ B' : List C_String,
          compare_multiset_unordered_multiset (C_String_ops byte_sum) sample_rehash_policy
            false [] B' = true)) :=
  ⟨by unfold ElementOps.exact_on; decide,
    unordered_multiset_decides_inclusion (C_String_ops byte_sum) sample_rehash_policy false
      [letters 97] [letters 98, letters 97, letters 97]
      (by unfold ElementOps.exact_on; decide)⟩

/-- C19 as stated fails on `C_String`: the element of `B` is accepted by
`operator==` as equal to the first element of `A` while their hashes differ;
the counting map returns false on `(A, B)` and the hash multiset returns true
on `(B, A)`, so the two are not equal. Evaluated with the sample hash and table
rules. -/
theorem hashtable_reverse_inclusion_fails_on_inexact_equality :
    (zero_at_one 98).initialised ∧ (zero_at_one 102).initialised ∧
      (letters 122).initialised ∧
      (zero_at_one 102).operator_eq (zero_at_one 98) = some true ∧
      compare_multiset_hashtable_1 (C_String_ops byte_sum) sample_probe_policy true
        [zero_at_one 98, letters 122] [zero_at_one 102] = false ∧
      compare_multiset_unordered_multiset (C_String_ops byte_sum) sample_rehash_policy true
        [zero_at_one 102] [zero_at_one 98, letters 122] = true := by
  decide

/-- C19, amended: without the equal-length precondition, for sequences `A` (whose
length fits `size_t`) and `B` of any lengths on whose elements `operator==`
holds exactly between identical values (so that equal elements hash alike),
`compare_multiset_hashtable_1(A, B)` returns true if and only if every element
occurs in `B` at most as often as in `A`, so it equals
`compare_multiset_unordered_multiset(B, A)`; and for all operators, on
`A = [x]`, `B = [x, y]` the counting map returns false while the hash multiset
returns true when `operator==` accepts `x` as equal to itself; for every hash
function, table rule and `size_known`. -/
theorem hashtable_decides_reverse_inclusion {α : Type} [DecidableEq α] (K : ElementOps α)
    (P : RehashPolicy) (Q : ProbePolicy) (sk sk' : Bool) (A B : List α)
    (hex : K.exact_on (A ++ B)) (hfit : A.length < SIZE_MOD) :
    (compare_multiset_hashtable_1 K Q sk A B = true ↔ ∀ x, B.count x ≤ A.count x) ∧
      compare_multiset_hashtable_1 K Q sk A B =
        compare_multiset_unordered_multiset K P sk' B A ∧
      (∀ x y : α, compare_multiset_hashtable_1 K Q sk [x] [x, y] = false ∧
        (K.eq x x = true → compare_multiset_unordered_multiset K P sk' [x] [x, y] = true)) := by
  refine ⟨hashtable_true_iff K Q sk A B hex hfit, ?_, ?_⟩
  · rw [Bool.eq_iff_iff, hashtable_true_iff K Q sk A B hex hfit,
      unordered_multiset_true_iff K P sk' B A (exact_on_swap K A B hex)]
  · intro x y
    exact ⟨hashtable_false_of_longer K Q sk [x] [x, y] (size_t_fits_small _ (by simp))
      (by simp), unordered_multiset_true_on_front K P sk' x y⟩

theorem hashtable_decides_reverse_inclusion_witness :
    (C_String_ops byte_sum).exact_on ([letters 97, letters 98, letters 98] ++
        [letters 98, letters 97]) ∧
      [letters 97, letters 98, letters 98].length < SIZE_MOD ∧
      ((compare_multiset_hashtable_1 (C_String_ops byte_sum) sample_probe_policy true
            [letters 97, letters 98, letters 98] [letters 98, letters 97] = true ↔
          ∀ x, [letters 98, letters 97].count x ≤
            [letters 97, letters 98, letters 98].count x) ∧
        compare_multiset_hashtable_1 (C_String_ops byte_sum) sample_probe_policy true
            [letters 97, letters 98, letters 98] [letters 98, letters 97] =
          compare_multiset_unordered_multiset (C_String_ops byte_sum) sample_rehash_policy
            false [letters 98, letters 97] [letters 97, letters 98, letters 98] ∧
        (∀ x y : C_String,
          compare_multiset_hashtable_1 (C_String_ops byte_sum) sample_probe_policy true
              [x] [x, y] = false ∧
            ((C_String_ops byte_sum).eq x x = true →
              compare_multiset_unordered_multiset (C_String_ops byte_sum)
                sample_rehash_policy false [x] [x, y] = true))) :=
  ⟨by unfold ElementOps.exact_on; decide, size_t_fits_small _ (by decide),
    hashtable_decides_reverse_inclusion (C_String_ops byte_sum) sample_rehash_policy
      sample_probe_policy true false [letters 97, letters 98, letters 98]
      [letters 98, letters 97] (by unfold ElementOps.exact_on; decide)
      (size_t_fits_small _ (by decide))⟩

/-! ## Fixed-size representations -/

/-- C15: `boomer_string<m>::resize(k)` succeeds if and only if `k = m` and then
leaves the element unchanged; `C_String::resize(k)` on a freshly
default-constructed element succeeds if and only if `k = 100`, and then the
element owns a 101-byte buffer whose byte at index 100 is 0 and reports
`size() = 100`; every other `k` fails by assertion. -/
theorem fixed_size_resize :
    (∀ (m : Nat) (str : boomer_string m) (k : Nat), (str.resize k).isSome = true ↔ k = m) ∧
      (∀ (m : Nat) (str r : boomer_string m) (k : Nat), str.resize k = some r → r = str) ∧
      (∀ k : Nat, (C_String.resize C_String_rep.construct k).isSome = true ↔ k = 100) ∧
      (∀ (k : Nat) (r : C_String), C_String.resize C_String_rep.construct k = some r →
        ∃ buf, r.str = some buf ∧ buf.length = 101 ∧ buf[100]? = some 0 ∧ r.size = 100) ∧
      (∀ (m : Nat) (str : boomer_string m) (k : Nat), k ≠ m → str.resize k = none) ∧
      (∀ k : Nat, k ≠ 100 → C_String.resize C_String_rep.construct k = none) := by
  refine ⟨?_, ?_, ?_, ?_, ?_, ?_⟩
  · intro m str k
    unfold boomer_string.resize
    split <;> simp_all
  · intro m str r k h
    unfold boomer_string.resize at h
    split at h
    · exact (Option.some.inj h).symm
    · cases h
  · intro k
    simp only [C_String.resize, C_String_rep]
    split <;> simp_all
  · intro k r h
    simp only [C_String.resize, C_String_rep] at h
    split at h
    · rename_i hk
      subst hk
      have hr := (Option.some.inj h).symm
      subst hr
      exact ⟨_, rfl, by simp, by simp, rfl⟩
    · cases h
  · intro m str k hk
    simp [boomer_string.resize, hk]
  · intro k hk
    simp [C_String.resize, C_String_rep, hk]

/-! ## Registration -/

theorem arg_loop_fuel_mono (fuel : Nat) (n : Int) (args r : List Int)
    (h : arg_loop fuel n args = some r) (k : Nat) : arg_loop (fuel + k) n args = some r := by
  induction fuel generalizing n args with
  | zero => simp [arg_loop] at h
  | succ f ih =>
    have hk : f + 1 + k = (f + k) + 1 := by omega
    rw [hk]
    unfold arg_loop at h ⊢
    split
    · rename_i hle
      rw [if_pos hle] at h
      exact ih _ _ h
    · rename_i hle
      rw [if_neg hle] at h
      exact h

theorem arg_loop_sweep (k : Nat) : arg_loop (17 + k) 1024 [] = some size_sweep :=
  arg_loop_fuel_mono 17 1024 [] size_sweep (by decide) k

theorem registerBenchmarks_fuel (k : Nat) (rep : Representation) (rep_name : String)
    (almost_equal : Bool) (fs : List (Algorithm × Bool × String)) (registry : List Benchmark) :
    registerBenchmarks (17 + k) rep rep_name almost_equal fs registry =
      registerBenchmarks 17 rep rep_name almost_equal fs registry := by
  induction fs generalizing registry with
  | nil => rfl
  | cons f rest ih =>
    obtain ⟨a, sk, nm⟩ := f
    have h17 : arg_loop 17 1024 [] = some size_sweep := arg_loop_sweep 0
    simp only [registerBenchmarks, arg_loop_sweep k, h17, ih]

theorem main_registrations_fuel (k : Nat) :
    main_registrations (17 + k) = main_registrations 17 := by
  simp only [main_registrations, RegisterBenchmarks, registerBenchmarks_fuel]

/-- C16: with enough passes for the `Arg` loop to end (17 or more), `main`
registers 36 benchmarks; their names are pairwise distinct and read
`<algorithm>/<representation>/<almost_equal|random>/100`; every combination of
algorithm, `size_known`, representation and distribution is registered exactly
once; and each benchmark receives exactly the 16 arguments
`2^10, 2^11, ..., 2^25` (1024 up to `32 * 1024 * 1024`), each once and in
increasing order. -/
theorem main_registers_every_combination_once (k : Nat) :
    ∃ registry, main_registrations (17 + k) = some registry ∧
      registry.length = 36 ∧
      (registry.map (fun b => b.name)).Nodup ∧
      (∀ b ∈ registry, b.name =
        function_label b.algorithm b.size_known ++ "/" ++
          representation_label b.representation ++ "/" ++
          (if b.almost_equal then "almost_equal" else "random") ++ "/100") ∧
      (∀ a sk r ae, (registry.filter (fun b => b.algorithm = a ∧ b.size_known = sk ∧
        b.representation = r ∧ b.almost_equal = ae)).length = 1) ∧
      (∀ b ∈ registry, b.args = size_sweep) ∧
      size_sweep.length = 16 ∧ size_sweep.Sorted (· < ·) ∧
      size_sweep.head? = some 1024 ∧ size_sweep.getLast? = some (32 * 1024 * 1024) ∧
      (∀ i : Fin 16, size_sweep[i.val]? = some ((2 : Int) ^ (i.val + 10))) := by
  rw [main_registrations_fuel]
  refine ⟨_, rfl, ?_, ?_, ?_, ?_, ?_, ?_, ?_, ?_, ?_, ?_⟩ <;> decide

/-! ## The benchmark body -/

/-- On two buffers that continue a zero-free front with a zero byte, `strcmp`
returns zero exactly when the fronts are equal. -/
theorem strcmp_zero_free (p q x y : List Nat) (hp : ∀ b ∈ p, b ≠ 0) (hq : ∀ b ∈ q, b ≠ 0) :
    ∃ r, strcmp (p ++ 0 :: x) (q ++ 0 :: y) = some r ∧ (r = 0 ↔ p = q) := by
  induction p generalizing q with
  | nil =>
    cases q with
    | nil => exact ⟨0, by simp [strcmp], by simp⟩
    | cons b q' =>
      have hb : b ≠ 0 := hq b (List.mem_cons_self _ _)
      refine ⟨(0 : Int) - (b : Int), ?_, ?_⟩
      · simp [strcmp, Ne.symm hb]
      · constructor
        · intro h
          omega
        · intro h
          cases h
  | cons a p' ih =>
    have ha : a ≠ 0 := hp a (List.mem_cons_self _ _)
    have hp' : ∀ b ∈ p', b ≠ 0 := fun b hb => hp b (List.mem_cons_of_mem _ hb)
    cases q with
    | nil =>
      refine ⟨(a : Int) - 0, ?_, ?_⟩
      · simp [strcmp, ha]
      · constructor
        · intro h
          omega
        · intro h
          cases h
    | cons b q' =>
      have hq' : ∀ c ∈ q', c ≠ 0 := fun c hc => hq c (List.mem_cons_of_mem _ hc)
      by_cases hab : a = b
      · subst hab
        obtain ⟨r, hr, hiff⟩ := ih q' hp' hq'
        refine ⟨r, ?_, ?_⟩
        · simp [strcmp, ha, hr]
        · rw [hiff]
          simp
      · refine ⟨(a : Int) - (b : Int), ?_, ?_⟩
        · simp [strcmp, hab]
        · constructor
          · intro h
            omega
          · intro h
            exact absurd (List.cons.inj h).1 hab

theorem buffer_eq_front_append_zero (buf : List Nat) (hlen : buf.length = 101)
    (hterm : buf[100]? = some 0) : buf = buf.take 100 ++ 0 :: [] := by
  have hlt : 100 < buf.length := by omega
  have hget : buf[100] = 0 := by
    rw [List.getElem?_eq_getElem hlt] at hterm
    exact Option.some.inj hterm
  have hdrop : buf.drop 100 = [0] := by
    rw [List.drop_eq_getElem_cons hlt, hget, List.drop_of_length_le (by omega)]
  conv_lhs => rw [← List.take_append_drop 100 buf, hdrop]

/-- For initialised elements with zero-free payloads `operator==` is defined and
compares the payloads. -/
theorem operator_eq_of_zero_free (a b : C_String) (ha : a.initialised) (hb : b.initialised)
    (hza : a.zero_free) (hzb : b.zero_free) :
    a.operator_eq b = some (decide (payload C_String_rep a = payload C_String_rep b)) := by
  rcases a with ⟨_ | x⟩
  · simp [C_String.initialised, C_String_rep] at ha
  rcases b with ⟨_ | y⟩
  · simp [C_String.initialised, C_String_rep] at hb
  obtain ⟨hxl, hxt⟩ := ha
  obtain ⟨hyl, hyt⟩ := hb
  have hx := buffer_eq_front_append_zero x hxl hxt
  have hy := buffer_eq_front_append_zero y hyl hyt
  have hpx : payload C_String_rep (C_String.mk (some x)) = x.take 100 := rfl
  have hpy : payload C_String_rep (C_String.mk (some y)) = y.take 100 := rfl
  rw [hpx, hpy]
  obtain ⟨r, hr, hiff⟩ := strcmp_zero_free (x.take 100) (y.take 100) [] []
    (fun c hc => hza c (hpx ▸ hc)) (fun c hc => hzb c (hpy ▸ hc))
  rw [← hx, ← hy] at hr
  simp only [C_String.operator_eq, hr, Option.map_some', Option.some.injEq, decide_eq_decide]
  exact hiff

/-- C20: for two initialised `C_String` values whose 100 payload bytes are all
non-zero, `operator==` (`strcmp` on the null-terminated buffers) returns true
if and only if the 100 payload bytes are identical, so equal elements hand the
hash function the same input `(data(), size() = 100)` and hash alike; the
precondition is needed: two initialised elements with a zero byte at index 1
and different bytes at index 2 compare equal although their 100-byte hash
inputs differ. -/
theorem C_String_equality_matches_hash_input (a b : C_String) (ha : a.initialised)
    (hb : b.initialised) (hza : a.zero_free) (hzb : b.zero_free) (H : List Nat → Nat) :
    (a.operator_eq b = some true ↔ payload C_String_rep a = payload C_String_rep b) ∧
      (a.operator_eq b = some true → a.hash_input = b.hash_input ∧ a.hash H = b.hash H) ∧
      ((C_String.mk (some (97 :: 0 :: 98 :: List.replicate 98 0))).initialised ∧
        (C_String.mk (some (97 :: 0 :: 99 :: List.replicate 98 0))).initialised ∧
        (C_String.mk (some (97 :: 0 :: 98 :: List.replicate 98 0))).operator_eq
          (C_String.mk (some (97 :: 0 :: 99 :: List.replicate 98 0))) = some true ∧
        (C_String.mk (some (97 :: 0 :: 98 :: List.replicate 98 0))).hash_input ≠
          (C_String.mk (some (97 :: 0 :: 99 :: List.replicate 98 0))).hash_input) := by
  have heq := operator_eq_of_zero_free a b ha hb hza hzb
  have hiff : a.operator_eq b = some true ↔
      payload C_String_rep a = payload C_String_rep b := by
    rw [heq]
    simp
  refine ⟨hiff, ?_, by decide, by decide, by decide, by decide⟩
  intro h
  have hp := hiff.1 h
  exact ⟨hp, congrArg H hp⟩

theorem C_String_equality_matches_hash_input_witness :
    (C_String.mk (some (List.replicate 100 97 ++ [0]))).initialised ∧
      (C_String.mk (some (98 :: List.replicate 99 97 ++ [0]))).initialised ∧
      (C_String.mk (some (List.replicate 100 97 ++ [0]))).zero_free ∧
      (C_String.mk (some (98 :: List.replicate 99 97 ++ [0]))).zero_free ∧
      (((C_String.mk (some (List.replicate 100 97 ++ [0]))).operator_eq
            (C_String.mk (some (98 :: List.replicate 99 97 ++ [0]))) = some true ↔
          payload C_String_rep (C_String.mk (some (List.replicate 100 97 ++ [0]))) =
            payload C_String_rep (C_String.mk (some (98 :: List.replicate 99 97 ++ [0])))) ∧
        ((C_String.mk (some (List.replicate 100 97 ++ [0]))).operator_eq
            (C_String.mk (some (98 :: List.replicate 99 97 ++ [0]))) = some true →
          (C_String.mk (some (List.replicate 100 97 ++ [0]))).hash_input =
              (C_String.mk (some (98 :: List.replicate 99 97 ++ [0]))).hash_input ∧
            (C_String.mk (some (List.replicate 100 97 ++ [0]))).hash List.sum =
              (C_String.mk (some (98 :: List.replicate 99 97 ++ [0]))).hash List.sum) ∧
        ((C_String.mk (some (97 :: 0 :: 98 :: List.replicate 98 0))).initialised ∧
          (C_String.mk (some (97 :: 0 :: 99 :: List.replicate 98 0))).initialised ∧
          (C_String.mk (some (97 :: 0 :: 98 :: List.replicate 98 0))).operator_eq
            (C_String.mk (some (97 :: 0 :: 99 :: List.replicate 98 0))) = some true ∧
          (C_String.mk (some (97 :: 0 :: 98 :: List.replicate 98 0))).hash_input ≠
            (C_String.mk (some (97 :: 0 :: 99 :: List.replicate 98 0))).hash_input)) :=
  ⟨by decide, by decide, by decide, by decide,
    C_String_equality_matches_hash_input
      (C_String.mk (some (List.replicate 100 97 ++ [0])))
      (C_String.mk (some (98 :: List.replicate 99 97 ++ [0])))
      (by decide) (by decide) (by decide) (by decide) List.sum⟩

/-! ## Evaluations on small inputs -/

theorem generate_random_strings_random_sample :
    generate_random_strings std_string_rep minstd_source false 2 3 =
      some [[108, 114, 102], [107, 113, 121]] := by
  decide

theorem generate_random_strings_almost_equal_sample :
    generate_random_strings std_string_rep minstd_source true 3 6 =
      some [[108, 114, 108, 114, 102, 107], [108, 114, 113, 121, 117, 113],
        [108, 114, 102, 106, 107, 120]] := by
  decide

theorem generate_random_strings_boomer_string_wrong_size :
    generate_random_strings (boomer_string_rep 100) minstd_source true 3 99 = none := by
  decide

theorem all_lowercase_sample :
    all_lowercase std_string_rep [bytes_of "aaaaaaaa", bytes_of "zzzz"] ∧
      ¬ all_lowercase std_string_rep [bytes_of "aaaaaaaa", bytes_of "zzZz"] := by
  decide

theorem compare_multiset_samples :
    compare_multiset_sort (ordered_ops id) false [1, 2, 2] [2, 1, 1] = false ∧
      compare_multiset_unordered_multiset (ordered_ops id) sample_rehash_policy true
        [1, 2, 2] [2, 1, 1] = false ∧
      compare_multiset_hashtable_1 (ordered_ops id) sample_probe_policy false
        [1, 2, 2] [2, 1, 1] = false ∧
      compare_multiset_hashtable_1 (ordered_ops id) sample_probe_policy true
        [1, 2, 2] [2, 2, 1] = true := by
  decide

theorem C_String_hash_samples :
    (C_String_ops byte_sum).hash (zero_at_one 98) = 195 ∧
      (C_String_ops byte_sum).hash (zero_at_one 99) = 196 ∧
      (C_String_ops byte_sum).hash (zero_at_one 102) = 199 ∧
      (C_String_ops byte_sum).hash (letters 122) = 12200 := by
  decide

end HashBenchmark
